import Mathlib

/-!
Verification development for the Sovereign RAG Gateway core.

Shallow embedding of the gateway's Python modules (budget tracker, provider
registry and fallback router, audit writer, redaction engine, chat service
error mapping and streaming generator) as executable Lean definitions,
followed by theorems settling the specification's testable properties.

Python integers are modelled as `Int`, monotonic timestamps as `Rat`,
strings as `String` or `List Char` where character-level structure matters.
-/

namespace SRG

/-! ## Budget tracker (src/app/budget/tracker.py)

In-process sliding-window token budget tracker.  `UsageEntry`, `TenantBucket`
and `TokenBudgetTracker` mirror the dataclasses; dictionaries are association
lists with Python-dict lookup semantics.
-/

/-- `UsageEntry`: a single recorded token usage event. -/
structure UsageEntry where
  timestamp : Rat
  tokens : Int
deriving Repr, DecidableEq

/-- `TenantBucket`: sliding-window token bucket for a single tenant. -/
structure TenantBucket where
  entries : List UsageEntry
deriving Repr, DecidableEq

/-- `TenantBucket.prune`: remove entries older than *cutoff*
(keeps entries with `e.timestamp >= cutoff`). -/
def TenantBucket.prune (b : TenantBucket) (cutoff : Rat) : TenantBucket :=
  ⟨b.entries.filter (fun e => cutoff ≤ e.timestamp)⟩

/-- `TenantBucket.total_tokens`: sum of the tokens of all entries. -/
def TenantBucket.total_tokens (b : TenantBucket) : Int :=
  (b.entries.map (·.tokens)).sum

/-- Python `dict` lookup over an insertion-ordered association list. -/
def alGet? {β : Type} (l : List (String × β)) (k : String) : Option β :=
  match l.find? (fun p => p.1 == k) with
  | some p => some p.2
  | none => none

/-- Python `dict.get(key, default)` over an association list. -/
def alGetD {β : Type} (l : List (String × β)) (k : String) (d : β) : β :=
  (alGet? l k).getD d

/-- Python `dict` assignment: overwrite in place when the key is present,
otherwise append (insertion order preserved). -/
def alSet {β : Type} (l : List (String × β)) (k : String) (v : β) :
    List (String × β) :=
  match l with
  | [] => [(k, v)]
  | p :: rest => if p.1 == k then (k, v) :: rest else p :: alSet rest k v

/-- `TokenBudgetTracker`: in-process sliding-window token budget tracker.
`buckets` is the `defaultdict(TenantBucket)` state; a missing tenant reads as
an empty bucket. -/
structure TokenBudgetTracker where
  default_ceiling : Int
  window_seconds : Int
  tenant_ceilings : List (String × Int)
  buckets : List (String × TenantBucket)
deriving Repr

/-- Read a tenant's bucket (`defaultdict` semantics: missing key is an empty
bucket). -/
def TokenBudgetTracker.bucketFor (t : TokenBudgetTracker) (tenant : String) :
    TenantBucket :=
  (alGet? t.buckets tenant).getD ⟨[]⟩

/-- Store a tenant's bucket back into the tracker state. -/
def TokenBudgetTracker.setBucket (t : TokenBudgetTracker) (tenant : String)
    (b : TenantBucket) : TokenBudgetTracker :=
  { t with buckets := alSet t.buckets tenant b }

/-- `TokenBudgetTracker.ceiling_for`: effective token ceiling for a tenant. -/
def TokenBudgetTracker.ceiling_for (t : TokenBudgetTracker) (tenant : String) :
    Int :=
  alGetD t.tenant_ceilings tenant t.default_ceiling

/-- `BudgetExceededError` payload. -/
structure BudgetExceededError where
  tenant_id : String
  used : Int
  ceiling : Int
  window_seconds : Int
deriving Repr, DecidableEq

/-- `TokenBudgetTracker.check`: prune the tenant's bucket at
`now - window_seconds`, then raise `BudgetExceededError` when
`current + requested > ceiling`.  The mutated (pruned) tracker state is
returned alongside the outcome; `check` never appends an entry. -/
def TokenBudgetTracker.check (t : TokenBudgetTracker) (tenant : String)
    (requested_tokens : Int) (now : Rat) :
    TokenBudgetTracker × Option BudgetExceededError :=
  let ceiling := t.ceiling_for tenant
  let bucket := t.bucketFor tenant
  let cutoff := now - (t.window_seconds : Rat)
  let bucket := bucket.prune cutoff
  let current := bucket.total_tokens
  let t' := t.setBucket tenant bucket
  if current + requested_tokens > ceiling then
    (t', some ⟨tenant, current, ceiling, t.window_seconds⟩)
  else
    (t', none)

/-- `TokenBudgetTracker.record`: append an actual-usage entry. -/
def TokenBudgetTracker.record (t : TokenBudgetTracker) (tenant : String)
    (tokens : Int) (now : Rat) : TokenBudgetTracker :=
  t.setBucket tenant ⟨(t.bucketFor tenant).entries ++ [⟨now, tokens⟩]⟩

/-- `TokenBudgetTracker.usage`: current usage within the window (prunes). -/
def TokenBudgetTracker.usage (t : TokenBudgetTracker) (tenant : String)
    (now : Rat) : TokenBudgetTracker × Int :=
  let bucket := (t.bucketFor tenant).prune (now - (t.window_seconds : Rat))
  (t.setBucket tenant bucket, bucket.total_tokens)

/-- Python `round(x, ndigits)`: half-to-even at `ndigits` decimal places,
over rationals (the source applies it to floats; the rational model keeps
the same rounding rule). -/
def pyRound (ndigits : Nat) (q : Rat) : Rat :=
  let scale : Rat := (10 : Rat) ^ ndigits
  let scaled := q * scale
  let fl := ⌊scaled⌋
  let frac := scaled - (fl : Rat)
  let r : Int :=
    if frac < 1/2 then fl
    else if frac > 1/2 then fl + 1
    else if fl % 2 = 0 then fl else fl + 1
  (r : Rat) / scale

/-- Python `round(x, 2)` as used by the budget summaries. -/
def pyRound2 (q : Rat) : Rat := pyRound 2 q

/-- Summary record returned by `summary` (the dict literal in the source). -/
structure BudgetSummary where
  tenant_id : String
  window_seconds : Int
  ceiling : Int
  used : Int
  remaining : Int
  utilization_pct : Rat
deriving Repr, DecidableEq

/-- `TokenBudgetTracker.summary`: summary dict for API responses and audit
events; `utilization_pct` falls back to `0.0` unless `ceiling > 0`. -/
def TokenBudgetTracker.summary (t : TokenBudgetTracker) (tenant : String)
    (now : Rat) : BudgetSummary :=
  let ceiling := t.ceiling_for tenant
  let used := (t.usage tenant now).2
  { tenant_id := tenant
    window_seconds := t.window_seconds
    ceiling := ceiling
    used := used
    remaining := max 0 (ceiling - used)
    utilization_pct :=
      if ceiling > 0 then pyRound2 ((used : Rat) / (ceiling : Rat) * 100)
      else 0 }

/-! Redis-backed tracker (`RedisTokenBudgetTracker`).  The sorted set for a
tenant is modelled as the list of members (strings `"<ts>:<tokens>:<uuid>"`)
whose scores lie inside the window, i.e. the list `ZRANGEBYSCORE` returns
after the `ZREMRANGEBYSCORE` prune. -/

/-- `RedisTokenBudgetTracker._member_tokens`: parse the token count out of a
member string `"<timestamp>:<tokens>:<uuid>"`; malformed members count 0.
(`String.toInt?` stands in for Python `int(...)`.) -/
def redisMemberTokens (member : String) : Int :=
  let parts := member.splitOn ":"
  if parts.length < 3 then 0
  else
    match (parts.get? 1).bind String.toInt? with
    | some n => max n 0
    | none => 0

/-- `RedisTokenBudgetTracker._current_usage`: sum of member token counts. -/
def redisCurrentUsage (members : List String) : Int :=
  (members.map redisMemberTokens).sum

/-- `RedisTokenBudgetTracker.summary` given the tenant's in-window members
and the effective ceiling (`ceiling_for` has the same dict-lookup semantics
as the in-memory tracker). -/
def redisSummary (tenant : String) (window_seconds : Int) (ceiling : Int)
    (members : List String) : BudgetSummary :=
  let used := redisCurrentUsage members
  { tenant_id := tenant
    window_seconds := window_seconds
    ceiling := ceiling
    used := used
    remaining := max 0 (ceiling - used)
    utilization_pct :=
      if ceiling > 0 then pyRound2 ((used : Rat) / (ceiling : Rat) * 100)
      else 0 }

/-- The public methods defined on the `BudgetTracker` protocol in
src/app/budget/tracker.py (lines 50-59). -/
def budgetTrackerProtocolMethods : List String :=
  ["check", "record", "summary"]

/-- The public (non-underscore) methods and properties defined on
`TokenBudgetTracker` in src/app/budget/tracker.py (lines 81-170). -/
def tokenBudgetTrackerMethods : List String :=
  ["default_ceiling", "window_seconds", "ceiling_for", "check", "record",
   "usage", "remaining", "reset", "summary"]

/-- The public methods and properties defined on `RedisTokenBudgetTracker`. -/
def redisTokenBudgetTrackerMethods : List String :=
  ["default_ceiling", "window_seconds", "ceiling_for", "check", "record",
   "usage", "summary"]

/-! ## Provider registry and fallback router (src/app/providers/registry.py) -/

/-- `ProviderError` (src/app/providers/base.py). -/
structure ProviderError where
  status_code : Int
  code : String
  message : String
  error_type : String := "provider"
deriving Repr, DecidableEq

/-- `ProviderCost`: cost per token in USD (modelled as rationals). -/
structure ProviderCost where
  input_per_token : Rat := 0
  output_per_token : Rat := 0
deriving Repr, DecidableEq

/-- `ProviderCapabilities` (src/app/providers/base.py). -/
structure ProviderCapabilities where
  chat : Bool := true
  embeddings : Bool := true
  streaming : Bool := false
  model_prefixes : List String := []
deriving Repr, DecidableEq

/-- `ProviderCapabilities.supports_model`. -/
def ProviderCapabilities.supports_model (c : ProviderCapabilities)
    (model : String) : Bool :=
  if c.model_prefixes.isEmpty then true
  else c.model_prefixes.any (fun p => model.startsWith p)

/-- `ProviderEntry` minus the live `provider` object (provider behaviour is
passed to the router as a function). -/
structure ProviderEntry where
  name : String
  cost : ProviderCost := {}
  capabilities : ProviderCapabilities := {}
  priority : Int := 0
  enabled : Bool := true
deriving Repr, DecidableEq

/-- Stable insertion sort ascending by priority: the model of Python's
stable `sorted(..., key=lambda e: e.priority)`. -/
def insertByPriority (x : ProviderEntry) :
    List ProviderEntry → List ProviderEntry
  | [] => [x]
  | y :: ys =>
    if y.priority < x.priority then y :: insertByPriority x ys
    else x :: y :: ys

/-- Stable sort ascending by priority (ties keep input order). -/
def sortByPriority (l : List ProviderEntry) : List ProviderEntry :=
  l.foldr insertByPriority []

/-- `ProviderRegistry`: name→entry dict, modelled as an insertion-ordered
association list (`register` overwrites by name). -/
structure ProviderRegistry where
  providers : List (String × ProviderEntry)
deriving Repr

/-- `dict.values()` of the registry. -/
def ProviderRegistry.values (r : ProviderRegistry) : List ProviderEntry :=
  r.providers.map (·.2)

/-- `ProviderRegistry.fallback_chain`: primary first when present and
enabled, then the other enabled entries ascending by priority. -/
def ProviderRegistry.fallback_chain (r : ProviderRegistry) (primary : String) :
    List ProviderEntry :=
  let entries := r.values.filter (·.enabled)
  match alGet? r.providers primary with
  | some primary_entry =>
    if primary_entry.enabled then
      primary_entry ::
        sortByPriority (entries.filter (fun e => e.name ≠ primary))
    else sortByPriority entries
  | none => sortByPriority entries

/-- Routing operation kind. -/
inductive Operation | chat | embeddings
deriving Repr, DecidableEq

/-- `ProviderRegistry._is_eligible`. -/
def isEligible (entry : ProviderEntry) (operation : Operation)
    (model : String) (requires_stream : Bool)
    (allowed_provider_names : Option (List String)) : Bool :=
  if !entry.enabled then false
  else if (match allowed_provider_names with
    | some allowed => !(allowed.contains entry.name)
    | none => false) then false
  else if (operation == .chat) && !entry.capabilities.chat then false
  else if (operation == .embeddings) && !entry.capabilities.embeddings then
    false
  else if requires_stream && !entry.capabilities.streaming then false
  else entry.capabilities.supports_model model

/-- `ProviderRegistry.eligible_chain`. -/
def ProviderRegistry.eligible_chain (r : ProviderRegistry) (primary : String)
    (operation : Operation) (model : String) (requires_stream : Bool)
    (allowed_provider_names : Option (List String)) : List ProviderEntry :=
  (r.fallback_chain primary).filter
    (fun e => isEligible e operation model requires_stream
      allowed_provider_names)

/-- `ProviderRoutingResult`. -/
structure ProviderRoutingResult (R : Type) where
  provider_name : String
  result : R
  fallback_chain : List String
  attempts : Nat
deriving Repr

/-- The `503 no_provider_match` error raised when the eligible chain is
empty. -/
def noProviderMatchError : ProviderError :=
  ⟨503, "no_provider_match",
   "No eligible providers for requested chat operation", "provider"⟩

/-- The `for entry in chain` loop of `route_with_fallback`: accumulates
`attempts`, returns the routing result on success, continues past retryable
`ProviderError`s (remembering the last one), re-raises non-retryable errors
immediately, and raises the last error on exhaustion. -/
def routeLoop {R : Type} (call : ProviderEntry → Except ProviderError R)
    (retryable : List Int) :
    List ProviderEntry → List String → ProviderError →
    Except ProviderError (ProviderRoutingResult R)
  | [], _, last => .error last
  | entry :: rest, attempts, _ =>
    let attempts := attempts ++ [entry.name]
    match call entry with
    | .ok result =>
      .ok ⟨entry.name, result, attempts, attempts.length⟩
    | .error exc =>
      if retryable.contains exc.status_code then
        routeLoop call retryable rest attempts exc
      else .error exc

/-- `route_with_fallback` over an already-computed eligible chain (the
`assert last_error is not None` fallthrough is unreachable for a non-empty
chain; the sentinel below stands for it). -/
def route_with_fallback {R : Type} (r : ProviderRegistry) (primary : String)
    (model : String) (allowed_provider_names : Option (List String))
    (call : ProviderEntry → Except ProviderError R)
    (retryable : List Int := [429, 502, 503]) :
    Except ProviderError (ProviderRoutingResult R) :=
  let chain := r.eligible_chain primary .chat model false
    allowed_provider_names
  match chain with
  | [] => .error noProviderMatchError
  | entry :: rest => routeLoop call retryable (entry :: rest) []
      noProviderMatchError

/-! ## Chat service error mapping, webhooks and cost
(src/app/services/chat_service.py) -/

/-- `AppError` (src/app/core/errors.py). -/
structure AppError where
  status_code : Int
  code : String
  error_type : String
  message : String
deriving Repr, DecidableEq

/-- `ChatService._app_error_from_provider_error`. -/
def appErrorFromProviderError (exc : ProviderError) : AppError :=
  if exc.status_code = 429 ∨ exc.status_code = 501 ∨ exc.status_code = 502 ∨
      exc.status_code = 503 then
    ⟨exc.status_code, exc.code, exc.error_type, exc.message⟩
  else
    ⟨502, "provider_upstream_error", "provider", exc.message⟩

/-- `WebhookEventType` (src/app/webhooks/dispatcher.py). -/
inductive WebhookEventType
  | policy_denied | provider_fallback | budget_warning | budget_exceeded
  | redaction_hit | provider_error
deriving Repr, DecidableEq

/-- `ChatService._queue_webhook_event` restricted to its effect on the
per-request `webhook_events` list: appends a summary entry when a
dispatcher is configured and `should_fire` accepts the event type. -/
def queueWebhookEvent (dispatcherConfigured : Bool)
    (shouldFire : WebhookEventType → Bool) (event_type : WebhookEventType)
    (webhook_events : List WebhookEventType) : List WebhookEventType :=
  if ¬dispatcherConfigured then webhook_events
  else if ¬shouldFire event_type then webhook_events
  else webhook_events ++ [event_type]

/-- The `except ProviderError` branch of the non-streaming `handle_chat`
provider call: queue a `provider_error` webhook, then raise the mapped
`AppError` (returned here instead of thrown). -/
def handleChatProviderErrorBranch (dispatcherConfigured : Bool)
    (shouldFire : WebhookEventType → Bool)
    (webhook_events : List WebhookEventType) (exc : ProviderError) :
    List WebhookEventType × AppError :=
  (queueWebhookEvent dispatcherConfigured shouldFire .provider_error
      webhook_events,
   appErrorFromProviderError exc)

/-- Provider-reported usage values (`response.usage`). -/
structure ProviderUsage where
  prompt_tokens : Int
  completion_tokens : Int
deriving Repr, DecidableEq

/-- `cost_usd` as computed on the non-streaming chat success path
(`round((tokens_in + tokens_out) * 0.000001, 8)`). -/
def chatCostUsd (usage : ProviderUsage) : Rat :=
  pyRound 8 (((usage.prompt_tokens + usage.completion_tokens) : Rat)
    * (1 / 1000000))

/-- `cost_usd` as computed in the streaming generator's finally block
(`round((usage_prompt_tokens + usage_completion_tokens) * 0.000001, 8)`). -/
def streamCostUsd (usage_prompt_tokens usage_completion_tokens : Int) : Rat :=
  pyRound 8 (((usage_prompt_tokens + usage_completion_tokens) : Rat)
    * (1 / 1000000))

/-- `cost_usd` as computed on the embeddings success path
(`round(tokens_in * 0.0000002, 8)`). -/
def embeddingsCostUsd (tokens_in : Int) : Rat :=
  pyRound 8 ((tokens_in : Rat) * (2 / 10000000))

/-- Modelled from the spec: "Cost for chat is
`round((tokens_in + tokens_out) × 1e-6, 8)`". -/
def specChatCost (tokens_in tokens_out : Int) : Rat :=
  pyRound 8 (((tokens_in + tokens_out) : Rat) * (1 / 1000000))

/-- Modelled from the spec: "for embeddings `round(tokens_in × 2e-7, 8)`". -/
def specEmbeddingsCost (tokens_in : Int) : Rat :=
  pyRound 8 ((tokens_in : Rat) * (2 / 10000000))

/-! ## SHA-256 (hashlib.sha256, as used by the audit writer)

Implemented over byte lists with plain `Nat` arithmetic and explicit
`% 2^32` wrap-around; structural recursion only, so that concrete hashes
evaluate by kernel reduction. -/

/-- Wrap to 32 bits. -/
def w32 (n : Nat) : Nat := n % 4294967296

/-- 32-bit addition. -/
def add32 (a b : Nat) : Nat := w32 (a + b)

/-- 32-bit rotate right. -/
def rotr32 (n x : Nat) : Nat := w32 ((x >>> n) ||| (x <<< (32 - n)))

/-- SHA-256 round constants. -/
def sha256K : List Nat :=
  [1116352408, 1899447441, 3049323471, 3921009573, 961987163,
   1508970993, 2453635748, 2870763221, 3624381080, 310598401,
   607225278, 1426881987, 1925078388, 2162078206, 2614888103,
   3248222580, 3835390401, 4022224774, 264347078, 604807628,
   770255983, 1249150122, 1555081692, 1996064986, 2554220882,
   2821834349, 2952996808, 3210313671, 3336571891, 3584528711,
   113926993, 338241895, 666307205, 773529912, 1294757372,
   1396182291, 1695183700, 1986661051, 2177026350, 2456956037,
   2730485921, 2820302411, 3259730800, 3345764771, 3516065817,
   3600352804, 4094571909, 275423344, 430227734, 506948616,
   659060556, 883997877, 958139571, 1322822218, 1537002063,
   1747873779, 1955562222, 2024104815, 2227730452, 2361852424,
   2428436474, 2756734187, 3204031479, 3329325298]

/-- SHA-256 initial hash state. -/
def sha256H0 : List Nat :=
  [1779033703, 3144134277, 1013904242, 2773480762,
   1359893119, 2600822924, 528734635, 1541459225]

/-- Big-endian 32-bit words from a 64-byte block. -/
def bytesToWords : List Nat → List Nat
  | b0 :: b1 :: b2 :: b3 :: rest =>
    (((b0 * 256 + b1) * 256 + b2) * 256 + b3) :: bytesToWords rest
  | _ => []

/-- Extend a 16-word schedule to 64 words (`k` more words to add). -/
def extendSchedule (w : List Nat) : Nat → List Nat
  | 0 => w
  | k + 1 =>
    let i := w.length
    let w15 := w.getD (i - 15) 0
    let w2 := w.getD (i - 2) 0
    let s0 := (rotr32 7 w15) ^^^ (rotr32 18 w15) ^^^ (w15 >>> 3)
    let s1 := (rotr32 17 w2) ^^^ (rotr32 19 w2) ^^^ (w2 >>> 10)
    extendSchedule
      (w ++ [add32 (add32 (w.getD (i - 16) 0) s0) (add32 (w.getD (i - 7) 0) s1)])
      k

/-- One SHA-256 compression round. -/
def sha256Round (st : List Nat) (kw : Nat × Nat) : List Nat :=
  match st with
  | [a, b, c, d, e, f, g, h] =>
    let s1 := (rotr32 6 e) ^^^ (rotr32 11 e) ^^^ (rotr32 25 e)
    let ch := (e &&& f) ^^^ ((4294967295 - e) &&& g)
    let t1 := add32 (add32 (add32 h s1) (add32 ch kw.1)) kw.2
    let s0 := (rotr32 2 a) ^^^ (rotr32 13 a) ^^^ (rotr32 22 a)
    let mj := (a &&& b) ^^^ (a &&& c) ^^^ (b &&& c)
    let t2 := add32 s0 mj
    [add32 t1 t2, a, b, c, add32 d t1, e, f, g]
  | st => st

/-- Compress one 64-byte block into the running state. -/
def sha256Compress (state : List Nat) (block : List Nat) : List Nat :=
  let w := extendSchedule (bytesToWords block) 48
  let st := (sha256K.zip w).foldl
    (fun st kw => sha256Round st (kw.2, kw.1)) state
  (state.zip st).map (fun p => add32 p.1 p.2)

/-- Fold the padded message, 64 bytes at a time (`fuel` bounds the block
count so the recursion is structural). -/
def sha256Blocks (fuel : Nat) (state : List Nat) (bytes : List Nat) :
    List Nat :=
  match fuel with
  | 0 => state
  | fuel + 1 =>
    match bytes with
    | [] => state
    | _ => sha256Blocks fuel (sha256Compress state (bytes.take 64))
        (bytes.drop 64)

/-- Big-endian length encoding on `n` bytes. -/
def beBytes : Nat → Nat → List Nat
  | 0, _ => []
  | k + 1, v => beBytes k (v / 256) ++ [v % 256]

/-- SHA-256 padding: `0x80`, zeros to 56 mod 64, 8-byte bit length. -/
def sha256Pad (msg : List Nat) : List Nat :=
  let len := msg.length
  let padLen := (55 + 64 - len % 64) % 64 + 1
  msg ++ (0x80 :: List.replicate (padLen - 1) 0) ++ beBytes 8 (len * 8)

/-- SHA-256 digest (32 bytes) of a byte list. -/
def sha256Bytes (msg : List Nat) : List Nat :=
  let padded := sha256Pad msg
  let state := sha256Blocks (padded.length / 64 + 1) sha256H0 padded
  state.foldr (fun word acc => beBytes 4 word ++ acc) []

/-- Lowercase hex digit. -/
def hexDigit (n : Nat) : Char :=
  if n < 10 then Char.ofNat (48 + n) else Char.ofNat (87 + n)

/-- Lowercase hex of one byte. -/
def byteHex (b : Nat) : List Char := [hexDigit (b / 16), hexDigit (b % 16)]

/-- `hashlib.sha256(x).hexdigest()`. -/
def sha256Hex (msg : List Nat) : String :=
  ⟨(sha256Bytes msg).foldr (fun b acc => byteHex b ++ acc) []⟩

/-- UTF-8 bytes of a string: the audit writer hashes ASCII-escaped JSON, so
each character is a single byte. -/
def strBytes (s : String) : List Nat := s.data.map Char.toNat

/-! ## Audit writer (src/app/audit/writer.py)

JSON values carry the payload fields; objects are insertion-ordered
association lists with Python-dict update semantics. -/

/-- JSON value (the subset audit events use). -/
inductive JVal where
  | str (s : String)
  | int (n : Int)
  | bool (b : Bool)
  | null
  | arr (xs : List JVal)
  | obj (fields : List (String × JVal))

/-- Four-char lowercase hex escape `\uXXXX`. -/
def uEscape (n : Nat) : List Char :=
  '\\' :: 'u' :: (byteHex (n / 256) ++ byteHex (n % 256))

/-- `json.dumps` string escaping with `ensure_ascii=True` for one
character (code points above 0xFFFF become a surrogate pair). -/
def jsonEscapeChar (c : Char) : List Char :=
  if c = '"' then ['\\', '"']
  else if c = '\\' then ['\\', '\\']
  else if c = '\n' then ['\\', 'n']
  else if c = '\r' then ['\\', 'r']
  else if c = '\t' then ['\\', 't']
  else if c.toNat = 8 then ['\\', 'b']
  else if c.toNat = 12 then ['\\', 'f']
  else if c.toNat < 32 then uEscape c.toNat
  else if c.toNat < 127 then [c]
  else if c.toNat < 65536 then uEscape c.toNat
  else
    let v := c.toNat - 65536
    uEscape (55296 + v / 1024) ++ uEscape (56320 + v % 1024)

/-- JSON string literal with ASCII escaping. -/
def jsonStr (s : String) : String :=
  ⟨'"' :: (s.data.foldr (fun c acc => jsonEscapeChar c ++ acc) ['"'])⟩

/-- Code-point lexicographic order on char lists (Python string `<`). -/
def charsLt : List Char → List Char → Bool
  | [], [] => false
  | [], _ :: _ => true
  | _ :: _, [] => false
  | a :: as, b :: bs =>
    if a.toNat < b.toNat then true
    else if b.toNat < a.toNat then false
    else charsLt as bs

/-- Python string comparison (code-point lexicographic). -/
def strLt (a b : String) : Bool := charsLt a.data b.data

/-- Stable insertion of a key/value pair by key order. -/
def insertByKey (x : String × JVal) :
    List (String × JVal) → List (String × JVal)
  | [] => [x]
  | y :: ys => if strLt y.1 x.1 then y :: insertByKey x ys else x :: y :: ys

/-- Sort object fields by key (`json.dumps(..., sort_keys=True)`). -/
def sortFields (l : List (String × JVal)) : List (String × JVal) :=
  l.foldr insertByKey []

mutual
/-- Recursively sort every object's fields by key (`sort_keys=True` acts at
every nesting level). -/
def sortAllKeys : JVal → JVal
  | .str s => .str s
  | .int n => .int n
  | .bool b => .bool b
  | .null => .null
  | .arr xs => .arr (sortAllKeysList xs)
  | .obj fields => .obj (sortFields (sortAllKeysFields fields))

/-- `sortAllKeys` over array elements. -/
def sortAllKeysList : List JVal → List JVal
  | [] => []
  | x :: rest => sortAllKeys x :: sortAllKeysList rest

/-- `sortAllKeys` over object fields. -/
def sortAllKeysFields : List (String × JVal) → List (String × JVal)
  | [] => []
  | (k, v) :: rest => (k, sortAllKeys v) :: sortAllKeysFields rest
end

mutual
/-- `json.dumps(v, separators=(",", ":"), ensure_ascii=True)` with the
field order as given. -/
def dumps : JVal → String
  | .str s => jsonStr s
  | .int n => toString n
  | .bool b => if b then "true" else "false"
  | .null => "null"
  | .arr xs => "[" ++ dumpsList xs ++ "]"
  | .obj fields => "\x7b" ++ dumpsFields fields ++ "\x7d"

/-- Comma-separated dumps of array elements. -/
def dumpsList : List JVal → String
  | [] => ""
  | [x] => dumps x
  | x :: y :: rest => dumps x ++ "," ++ dumpsList (y :: rest)

/-- Comma-separated dumps of object fields. -/
def dumpsFields : List (String × JVal) → String
  | [] => ""
  | [(k, v)] => jsonStr k ++ ":" ++ dumps v
  | (k, v) :: f :: rest =>
    jsonStr k ++ ":" ++ dumps v ++ "," ++ dumpsFields (f :: rest)
end

/-- `json.dumps(v, sort_keys=True, separators=(",", ":"),
ensure_ascii=True)`: the canonical JSON used for payload hashing. -/
def canonicalDumps (v : JVal) : String :=
  dumps (sortAllKeys v)

/-- Python `str(...)` of a JSON value, as applied to
`parsed.get("payload_hash", "")` (non-string values simplified to their
JSON text; the writer only ever stores strings there). -/
def pyStr : JVal → String
  | .str s => s
  | .bool b => if b then "True" else "False"
  | .null => "None"
  | v => canonicalDumps v

/-- An audit event / payload: an insertion-ordered JSON object. -/
abbrev Event := List (String × JVal)

/-- `AuditWriter._calculate_payload_hash`: SHA-256 hex of the canonical
JSON of the payload. -/
def calculatePayloadHash (payload : Event) : String :=
  sha256Hex (strBytes (canonicalDumps (.obj payload)))

/-- A line of the audit log file: a parsable JSON object or junk. -/
inductive RawLine where
  | line (e : Event)
  | junk (s : String)

/-- `AuditWriter._last_payload_hash`: empty string when the file is absent
or empty or its last line fails to parse, else
`str(parsed.get("payload_hash", ""))`. -/
def lastPayloadHash (file : List RawLine) : String :=
  match file.getLast? with
  | none => ""
  | some (.junk _) => ""
  | some (.line e) => pyStr ((alGet? e "payload_hash").getD (.str ""))

/-- `dict.setdefault`: insert only when the key is absent. -/
def alSetDefault (l : List (String × JVal)) (k : String) (v : JVal) :
    List (String × JVal) :=
  if (alGet? l k).isSome then l else alSet l k v

/-- `AuditWriter.write_event`: copy the event, default `event_id` and
`created_at`, set `prev_hash` from the file, compute `payload_hash` over
the payload as it stands (including `prev_hash`, and including any
pre-existing `payload_hash` value), validate, then append one line.
Returns the file and the stored payload, or the validation error. -/
def writeEvent (validate : Event → Bool) (uuid createdAt : String)
    (file : List RawLine) (event : Event) :
    List RawLine × Except String Event :=
  let payload := event
  let payload := alSetDefault payload "event_id" (.str uuid)
  let payload := alSetDefault payload "created_at" (.str createdAt)
  let payload := alSet payload "prev_hash" (.str (lastPayloadHash file))
  let hash := calculatePayloadHash payload
  let payload := alSet payload "payload_hash" (.str hash)
  if validate payload then (file ++ [.line payload], .ok payload)
  else (file, .error "AuditValidationError")

/-- Keys of an association list. -/
def alKeys (l : List (String × JVal)) : List String := l.map (·.1)

/-- The payload `write_event` stores for a given event, fresh uuid,
timestamp and file state (the body of `write_event` before validation). -/
def writePayload (u c : String) (file : List RawLine) (e : Event) : Event :=
  let payload := alSetDefault e "event_id" (.str u)
  let payload := alSetDefault payload "created_at" (.str c)
  let payload := alSet payload "prev_hash" (.str (lastPayloadHash file))
  alSet payload "payload_hash" (.str (calculatePayloadHash payload))

/-- The hash-chain invariant of an audit log file: every line parses, the
first line's `prev_hash` is the given seed (empty for a fresh log), and
each later line's `prev_hash` is the previous line's `payload_hash`. -/
def ChainedFrom : String → List RawLine → Prop
  | _, [] => True
  | prev, .line e :: rest =>
    alGet? e "prev_hash" = some (.str prev) ∧
    ChainedFrom (pyStr ((alGet? e "payload_hash").getD (.str ""))) rest
  | _, .junk _ :: _ => False

/-! ## Streaming SSE generator (src/app/services/chat_service.py,
`handle_chat_stream.event_stream`)

The generator is modelled as a pure function from the provider's chunk
stream and a termination fate to the emitted frame sequence and the
effects of the `finally` block.  Token accounting, redaction of deltas and
webhook queuing are elided: they alter neither the frame sequence nor the
single audit write.  A `BaseException` can surface at any point of the
try block: raised by the provider stream between data-frame yields, or
thrown into the generator (client disconnect, cancellation) at any
suspended `yield` — the data-frame yields, the synthetic citations and
finish-chunk yields, and the final `data: [DONE]` yield, where the
sentinel frame has already been handed to the transport before the
exception arrives.  The fate therefore cuts the try block's frame
sequence after any number of frames, the full sequence included.  The
`except BaseException` handler records the error and re-raises, and the
`finally` block always records budget usage and calls `write_event`
exactly once with `streaming=true` (an `AuditValidationError` there is
logged and swallowed). -/

/-- `ChatService._sse_event`: `f"data: \x7bjson.dumps(payload,
separators=(',', ':'))\x7d\n\n"`. -/
def sseEvent (payload : Event) : String :=
  "data: " ++ dumps (.obj payload) ++ "\n\n"

/-- The SSE terminal sentinel. -/
def doneFrame : String := "data: [DONE]\n\n"

/-- `chunk.get("choices")` when it is a list. -/
def chunkChoices (c : Event) : List JVal :=
  match alGet? c "choices" with
  | some (.arr xs) => xs
  | _ => []

/-- One choice's `finish_reason` is a non-empty string. -/
def choiceSawFinish (ch : JVal) : Bool :=
  match ch with
  | .obj f =>
    match alGet? f "finish_reason" with
    | some (.str s) => !(s == "")
    | _ => false
  | _ => false

/-- One choice's `delta` dict contains a `citations` key. -/
def choiceSawCitations (ch : JVal) : Bool :=
  match ch with
  | .obj f =>
    match alGet? f "delta" with
    | some (.obj d) => (alGet? d "citations").isSome
    | _ => false
  | _ => false

/-- Whether a chunk carries a non-empty `finish_reason`. -/
def chunkSawFinish (c : Event) : Bool := (chunkChoices c).any choiceSawFinish

/-- Whether a chunk's delta carries citations. -/
def chunkSawCitations (c : Event) : Bool :=
  (chunkChoices c).any choiceSawCitations

/-- The synthetic citations chunk inserted when citations exist but no
provider chunk carried them. -/
def citationsChunk (chunk_id : String) (chunk_created : Int)
    (model : String) (citations : List JVal) : Event :=
  [("id", .str chunk_id), ("object", .str "chat.completion.chunk"),
   ("created", .int chunk_created), ("model", .str model),
   ("choices", .arr [.obj [("index", .int 0),
     ("delta", .obj [("citations", .arr citations)]),
     ("finish_reason", .null)]])]

/-- The synthetic final chunk with `finish_reason: "stop"` emitted when
the provider never sent one. -/
def finishChunk (chunk_id : String) (chunk_created : Int) (model : String) :
    Event :=
  [("id", .str chunk_id), ("object", .str "chat.completion.chunk"),
   ("created", .int chunk_created), ("model", .str model),
   ("choices", .arr [.obj [("index", .int 0), ("delta", .obj []),
     ("finish_reason", .str "stop")]])]

/-- How the streaming generator terminates: the try block runs to its
end, or a `BaseException` (provider error raised while iterating the
provider stream, client disconnect / cancellation thrown into the
generator at a suspended `yield`) surfaces after `k` of the try block's
frames were yielded.  `k` may equal the full frame count: an exception
delivered at the final suspended `yield` arrives after the sentinel
frame was already handed to the transport. -/
inductive StreamFate where
  | complete
  | failAfter (k : Nat) (exc : String)

/-- What a run of the generator produces: the frames yielded to the
client, the events passed to `write_event` in the finally block, how many
of them were actually appended, whether budget usage was recorded, and
whether an exception propagated out of the generator. -/
structure StreamOutcome where
  frames : List String
  audit_calls : List Event
  audit_written : Nat
  budget_recorded : Bool
  raised : Bool

/-- The data frames: the routed first chunk (when present) followed by the
remaining provider chunks, each framed by `_sse_event`. -/
def streamDataFrames (first_chunk : Option Event) (chunks : List Event) :
    List String :=
  (match first_chunk with
    | some c => [sseEvent c]
    | none => []) ++ chunks.map sseEvent

/-- The frames of the try block before the sentinel: the data frames
followed by the synthetic citations / finish chunks when needed. -/
def tryBody (first_chunk : Option Event) (chunks : List Event)
    (citations : List JVal) (chunk_id : String) (chunk_created : Int)
    (model : String) : List String :=
  let allChunks := first_chunk.toList ++ chunks
  let saw_finish := allChunks.any chunkSawFinish
  let saw_citations := allChunks.any chunkSawCitations
  streamDataFrames first_chunk chunks ++
  (if !citations.isEmpty && !saw_citations then
    [sseEvent (citationsChunk chunk_id chunk_created model citations)]
  else []) ++
  (if !saw_finish then
    [sseEvent (finishChunk chunk_id chunk_created model)]
  else [])

/-- The try block's full frame sequence, ending with the sentinel. -/
def tryFrames (first_chunk : Option Event) (chunks : List Event)
    (citations : List JVal) (chunk_id : String) (chunk_created : Int)
    (model : String) : List String :=
  tryBody first_chunk chunks citations chunk_id chunk_created model ++
    [doneFrame]

/-- The streaming generator.  `auditOk` abstracts whether the audit event
passes schema validation in the finally block. -/
def eventStream (first_chunk : Option Event) (chunks : List Event)
    (citations : List JVal) (chunk_id : String) (chunk_created : Int)
    (model : String) (auditOk : Bool) (fate : StreamFate) : StreamOutcome :=
  let frames := match fate with
    | .complete =>
      tryFrames first_chunk chunks citations chunk_id chunk_created model
    | .failAfter k _ =>
      (tryFrames first_chunk chunks citations chunk_id chunk_created
        model).take k
  let stream_error : Option String := match fate with
    | .complete => none
    | .failAfter _ exc => some exc
  let audit_event := [("streaming", JVal.bool true)] ++
    (match stream_error with
      | some e => [("stream_error", JVal.str e)]
      | none => [])
  { frames := frames
    audit_calls := [audit_event]
    audit_written := if auditOk then 1 else 0
    budget_recorded := true
    raised := match fate with
      | .complete => false
      | .failAfter _ _ => true }

/-- `AppError` raised when the success-path audit write fails
(`handle_chat` and `handle_embeddings`). -/
def auditWriteFailedError : AppError :=
  ⟨502, "audit_write_failed", "provider", "Failed to persist audit event"⟩

/-- The audit persistence step on the non-streaming success paths: write
the event; on `AuditValidationError` raise 502 `audit_write_failed`. -/
def handleChatAuditStep (validate : Event → Bool) (u c : String)
    (file : List RawLine) (auditEvent : Event) :
    List RawLine × Except AppError Event :=
  match writeEvent validate u c file auditEvent with
  | (file', .ok p) => (file', .ok p)
  | (file', .error _) => (file', .error auditWriteFailedError)

/-! ## Redaction engine (src/app/redaction/engine.py)

The nine core patterns are compiled, by hand, from the `re` patterns in
`_CORE_PATTERNS` into a small regex AST with ordered-choice (backtracking)
semantics: alternation prefers its left branch and repetition is greedy,
as in Python's `re`.  Word boundaries (`\b`) occur only at the two ends of
every core pattern, so the matcher checks them around the candidate match.
The patterns are `str` patterns, so `\d`, `\s` and `\b`'s word class carry
Python's default Unicode semantics; they are embedded as code-point range
tables transcribed from CPython 3.11's `re` module by testing every code
point (`\d` the 660 Unicode decimal digits, `\s` the 29 Unicode
whitespace code points, `\w` the 133548 Unicode word characters), and the
`re.IGNORECASE` atoms of the mrn/dob/nino patterns are embedded as their
exact Unicode-ignorecase match sets, likewise obtained by testing every
code point: each of the letters M, R, N, D, O, B matches exactly its case
pair (none has a further Unicode case-equivalent), and the nino letter
classes additionally match U+017F (ſ) and U+212A (K), whose lowercase
forms fall inside the folded ranges. -/

/-- The character classes occurring in the core patterns.  `litCI c`
matches the letter `c` ignoring case: for the six letters it is used
with (M, R, N, D, O, B) Python's Unicode `re.IGNORECASE` literal matches
exactly the upper/lower case pair, checked against CPython on every code
point. -/
inductive CC where
  | digit
  | litCh (c : Char)
  | litCI (c : Char)
  | ws
  | sepColonWsDash
  | slashDash
  | wsDash
  | sepDotDashWs
  | ninoFirst
  | ninoLast
  | emailLocal
  | emailDomain
  | emailTld
deriving Repr, DecidableEq

/-- ASCII letter test (either case). -/
def isAsciiAlpha (c : Char) : Bool :=
  (65 ≤ c.toNat && c.toNat ≤ 90) || (97 ≤ c.toNat && c.toNat ≤ 122)

/-- ASCII digit test. -/
def isAsciiDigit (c : Char) : Bool := 48 ≤ c.toNat && c.toNat ≤ 57

/-- Membership of a code point in a list of inclusive ranges. -/
def inRanges (rs : List (Nat × Nat)) (c : Char) : Bool :=
  rs.any (fun r => r.1 ≤ c.toNat && c.toNat ≤ r.2)

/-- Python (Unicode) `\d`: the 660 code points of Unicode category Nd,
as CPython 3.11's `re` matches them against `\d`, in 62 inclusive
ranges. -/
def ndRanges : List (Nat × Nat) :=
  [(48, 57), (1632, 1641), (1776, 1785), (1984, 1993),
   (2406, 2415), (2534, 2543), (2662, 2671), (2790, 2799),
   (2918, 2927), (3046, 3055), (3174, 3183), (3302, 3311),
   (3430, 3439), (3558, 3567), (3664, 3673), (3792, 3801),
   (3872, 3881), (4160, 4169), (4240, 4249), (6112, 6121),
   (6160, 6169), (6470, 6479), (6608, 6617), (6784, 6793),
   (6800, 6809), (6992, 7001), (7088, 7097), (7232, 7241),
   (7248, 7257), (42528, 42537), (43216, 43225), (43264, 43273),
   (43472, 43481), (43504, 43513), (43600, 43609), (44016, 44025),
   (65296, 65305), (66720, 66729), (68912, 68921), (69734, 69743),
   (69872, 69881), (69942, 69951), (70096, 70105), (70384, 70393),
   (70736, 70745), (70864, 70873), (71248, 71257), (71360, 71369),
   (71472, 71481), (71904, 71913), (72016, 72025), (72784, 72793),
   (73040, 73049), (73120, 73129), (92768, 92777), (92864, 92873),
   (93008, 93017), (120782, 120831), (123200, 123209), (123632, 123641),
   (125264, 125273), (130032, 130041)]

/-- Python (Unicode) `\d` membership. -/
def isUniDigit (c : Char) : Bool := inRanges ndRanges c

/-- Python (Unicode) `\s`: the 29 code points CPython 3.11's `re`
matches against `\s` (ASCII whitespace, the information separators,
NEL, NBSP, and the Unicode space separators). -/
def pyWsRanges : List (Nat × Nat) :=
  [(9, 13), (28, 32), (133, 133), (160, 160),
   (5760, 5760), (8192, 8202), (8232, 8233), (8239, 8239),
   (8287, 8287), (12288, 12288)]

/-- Python (Unicode) `\s` membership. -/
def isPyWs (c : Char) : Bool := inRanges pyWsRanges c

/-- Class membership. -/
def CC.mem : CC → Char → Bool
  | .digit, c => isUniDigit c
  | .litCh a, c => c == a
  | .litCI a, c => c == a || c.toNat == a.toNat + 32
  | .ws, c => isPyWs c
  | .sepColonWsDash, c => c == ':' || isPyWs c || c == '-'
  | .slashDash, c => c == '/' || c == '-'
  | .wsDash, c => isPyWs c || c == '-'
  | .sepDotDashWs, c => c == '-' || c == '.' || isPyWs c
  | .ninoFirst, c =>
    let u := if 97 ≤ c.toNat && c.toNat ≤ 122 then c.toNat - 32 else c.toNat
    (65 ≤ u && u ≤ 67) || u == 69 || u == 71 || u == 72 ||
      (74 ≤ u && u ≤ 80) || (82 ≤ u && u ≤ 84) || (87 ≤ u && u ≤ 90) ||
      c.toNat == 383 || c.toNat == 8490
  | .ninoLast, c =>
    let u := if 97 ≤ c.toNat && c.toNat ≤ 122 then c.toNat - 32 else c.toNat
    65 ≤ u && u ≤ 68
  | .emailLocal, c => isAsciiAlpha c || isAsciiDigit c || c == '.' ||
      c == '_' || c == '%' || c == '+' || c == '-'
  | .emailDomain, c => isAsciiAlpha c || isAsciiDigit c || c == '.' ||
      c == '-'
  | .emailTld, c => isAsciiAlpha c || c == '|'

/-- Regex AST: ordered choice, greedy star over a single class. -/
inductive RE where
  | eps
  | cls (c : CC)
  | seq (a b : RE)
  | alt (a b : RE)
  | star (c : CC)
deriving Repr, DecidableEq

/-- `a{n}`: n-fold sequence. -/
def reRep (a : RE) : Nat → RE
  | 0 => .eps
  | n + 1 => .seq a (reRep a n)

/-- `a{0,n}` greedy: prefer consuming. -/
def reUpTo (a : RE) : Nat → RE
  | 0 => .eps
  | n + 1 => .alt (.seq a (reUpTo a n)) .eps

/-- `a{m,n}` greedy. -/
def reRange (a : RE) (m n : Nat) : RE := .seq (reRep a m) (reUpTo a (n - m))

/-- `a?` greedy. -/
def reOpt (a : RE) : RE := .alt a .eps

/-- `c+` for a class: one then star. -/
def rePlus (c : CC) : RE := .seq (.cls c) (.star c)

/-- Sequence of several regexes. -/
def reCat (l : List RE) : RE := l.foldr .seq .eps

/-- Suffixes reachable by the greedy star of a class, longest match
first. -/
def starSplits (c : CC) : List Char → List (List Char)
  | [] => [[]]
  | x :: rs =>
    (if CC.mem c x then starSplits c rs else []) ++ [x :: rs]

/-- The backtracking matcher: `run b rest` lists the suffixes left after
each way `b` can consume a prefix of `rest`, in the engine's preference
order (first = what Python's backtracking tries first). -/
def run : RE → List Char → List (List Char)
  | .eps, rest => [rest]
  | .cls _, [] => []
  | .cls c, x :: rs => if CC.mem c x then [rs] else []
  | .seq a b, rest => (run a rest).flatMap (run b)
  | .alt a b, rest => run a rest ++ run b rest
  | .star c, rest => starSplits c rest

/-- Python (Unicode) `\w`: the 133548 word code points (alphanumerics
and underscore) CPython 3.11's `re` matches against `\w`, in 734
inclusive ranges. -/
def wordRanges : List (Nat × Nat) :=
  [(48, 57), (65, 90), (95, 95), (97, 122),
   (170, 170), (178, 179), (181, 181), (185, 186),
   (188, 190), (192, 214), (216, 246), (248, 705),
   (710, 721), (736, 740), (748, 748), (750, 750),
   (880, 884), (886, 887), (890, 893), (895, 895),
   (902, 902), (904, 906), (908, 908), (910, 929),
   (931, 1013), (1015, 1153), (1162, 1327), (1329, 1366),
   (1369, 1369), (1376, 1416), (1488, 1514), (1519, 1522),
   (1568, 1610), (1632, 1641), (1646, 1647), (1649, 1747),
   (1749, 1749), (1765, 1766), (1774, 1788), (1791, 1791),
   (1808, 1808), (1810, 1839), (1869, 1957), (1969, 1969),
   (1984, 2026), (2036, 2037), (2042, 2042), (2048, 2069),
   (2074, 2074), (2084, 2084), (2088, 2088), (2112, 2136),
   (2144, 2154), (2160, 2183), (2185, 2190), (2208, 2249),
   (2308, 2361), (2365, 2365), (2384, 2384), (2392, 2401),
   (2406, 2415), (2417, 2432), (2437, 2444), (2447, 2448),
   (2451, 2472), (2474, 2480), (2482, 2482), (2486, 2489),
   (2493, 2493), (2510, 2510), (2524, 2525), (2527, 2529),
   (2534, 2545), (2548, 2553), (2556, 2556), (2565, 2570),
   (2575, 2576), (2579, 2600), (2602, 2608), (2610, 2611),
   (2613, 2614), (2616, 2617), (2649, 2652), (2654, 2654),
   (2662, 2671), (2674, 2676), (2693, 2701), (2703, 2705),
   (2707, 2728), (2730, 2736), (2738, 2739), (2741, 2745),
   (2749, 2749), (2768, 2768), (2784, 2785), (2790, 2799),
   (2809, 2809), (2821, 2828), (2831, 2832), (2835, 2856),
   (2858, 2864), (2866, 2867), (2869, 2873), (2877, 2877),
   (2908, 2909), (2911, 2913), (2918, 2927), (2929, 2935),
   (2947, 2947), (2949, 2954), (2958, 2960), (2962, 2965),
   (2969, 2970), (2972, 2972), (2974, 2975), (2979, 2980),
   (2984, 2986), (2990, 3001), (3024, 3024), (3046, 3058),
   (3077, 3084), (3086, 3088), (3090, 3112), (3114, 3129),
   (3133, 3133), (3160, 3162), (3165, 3165), (3168, 3169),
   (3174, 3183), (3192, 3198), (3200, 3200), (3205, 3212),
   (3214, 3216), (3218, 3240), (3242, 3251), (3253, 3257),
   (3261, 3261), (3293, 3294), (3296, 3297), (3302, 3311),
   (3313, 3314), (3332, 3340), (3342, 3344), (3346, 3386),
   (3389, 3389), (3406, 3406), (3412, 3414), (3416, 3425),
   (3430, 3448), (3450, 3455), (3461, 3478), (3482, 3505),
   (3507, 3515), (3517, 3517), (3520, 3526), (3558, 3567),
   (3585, 3632), (3634, 3635), (3648, 3654), (3664, 3673),
   (3713, 3714), (3716, 3716), (3718, 3722), (3724, 3747),
   (3749, 3749), (3751, 3760), (3762, 3763), (3773, 3773),
   (3776, 3780), (3782, 3782), (3792, 3801), (3804, 3807),
   (3840, 3840), (3872, 3891), (3904, 3911), (3913, 3948),
   (3976, 3980), (4096, 4138), (4159, 4169), (4176, 4181),
   (4186, 4189), (4193, 4193), (4197, 4198), (4206, 4208),
   (4213, 4225), (4238, 4238), (4240, 4249), (4256, 4293),
   (4295, 4295), (4301, 4301), (4304, 4346), (4348, 4680),
   (4682, 4685), (4688, 4694), (4696, 4696), (4698, 4701),
   (4704, 4744), (4746, 4749), (4752, 4784), (4786, 4789),
   (4792, 4798), (4800, 4800), (4802, 4805), (4808, 4822),
   (4824, 4880), (4882, 4885), (4888, 4954), (4969, 4988),
   (4992, 5007), (5024, 5109), (5112, 5117), (5121, 5740),
   (5743, 5759), (5761, 5786), (5792, 5866), (5870, 5880),
   (5888, 5905), (5919, 5937), (5952, 5969), (5984, 5996),
   (5998, 6000), (6016, 6067), (6103, 6103), (6108, 6108),
   (6112, 6121), (6128, 6137), (6160, 6169), (6176, 6264),
   (6272, 6276), (6279, 6312), (6314, 6314), (6320, 6389),
   (6400, 6430), (6470, 6509), (6512, 6516), (6528, 6571),
   (6576, 6601), (6608, 6618), (6656, 6678), (6688, 6740),
   (6784, 6793), (6800, 6809), (6823, 6823), (6917, 6963),
   (6981, 6988), (6992, 7001), (7043, 7072), (7086, 7141),
   (7168, 7203), (7232, 7241), (7245, 7293), (7296, 7304),
   (7312, 7354), (7357, 7359), (7401, 7404), (7406, 7411),
   (7413, 7414), (7418, 7418), (7424, 7615), (7680, 7957),
   (7960, 7965), (7968, 8005), (8008, 8013), (8016, 8023),
   (8025, 8025), (8027, 8027), (8029, 8029), (8031, 8061),
   (8064, 8116), (8118, 8124), (8126, 8126), (8130, 8132),
   (8134, 8140), (8144, 8147), (8150, 8155), (8160, 8172),
   (8178, 8180), (8182, 8188), (8304, 8305), (8308, 8313),
   (8319, 8329), (8336, 8348), (8450, 8450), (8455, 8455),
   (8458, 8467), (8469, 8469), (8473, 8477), (8484, 8484),
   (8486, 8486), (8488, 8488), (8490, 8493), (8495, 8505),
   (8508, 8511), (8517, 8521), (8526, 8526), (8528, 8585),
   (9312, 9371), (9450, 9471), (10102, 10131), (11264, 11492),
   (11499, 11502), (11506, 11507), (11517, 11517), (11520, 11557),
   (11559, 11559), (11565, 11565), (11568, 11623), (11631, 11631),
   (11648, 11670), (11680, 11686), (11688, 11694), (11696, 11702),
   (11704, 11710), (11712, 11718), (11720, 11726), (11728, 11734),
   (11736, 11742), (11823, 11823), (12293, 12295), (12321, 12329),
   (12337, 12341), (12344, 12348), (12353, 12438), (12445, 12447),
   (12449, 12538), (12540, 12543), (12549, 12591), (12593, 12686),
   (12690, 12693), (12704, 12735), (12784, 12799), (12832, 12841),
   (12872, 12879), (12881, 12895), (12928, 12937), (12977, 12991),
   (13312, 19903), (19968, 42124), (42192, 42237), (42240, 42508),
   (42512, 42539), (42560, 42606), (42623, 42653), (42656, 42735),
   (42775, 42783), (42786, 42888), (42891, 42954), (42960, 42961),
   (42963, 42963), (42965, 42969), (42994, 43009), (43011, 43013),
   (43015, 43018), (43020, 43042), (43056, 43061), (43072, 43123),
   (43138, 43187), (43216, 43225), (43250, 43255), (43259, 43259),
   (43261, 43262), (43264, 43301), (43312, 43334), (43360, 43388),
   (43396, 43442), (43471, 43481), (43488, 43492), (43494, 43518),
   (43520, 43560), (43584, 43586), (43588, 43595), (43600, 43609),
   (43616, 43638), (43642, 43642), (43646, 43695), (43697, 43697),
   (43701, 43702), (43705, 43709), (43712, 43712), (43714, 43714),
   (43739, 43741), (43744, 43754), (43762, 43764), (43777, 43782),
   (43785, 43790), (43793, 43798), (43808, 43814), (43816, 43822),
   (43824, 43866), (43868, 43881), (43888, 44002), (44016, 44025),
   (44032, 55203), (55216, 55238), (55243, 55291), (63744, 64109),
   (64112, 64217), (64256, 64262), (64275, 64279), (64285, 64285),
   (64287, 64296), (64298, 64310), (64312, 64316), (64318, 64318),
   (64320, 64321), (64323, 64324), (64326, 64433), (64467, 64829),
   (64848, 64911), (64914, 64967), (65008, 65019), (65136, 65140),
   (65142, 65276), (65296, 65305), (65313, 65338), (65345, 65370),
   (65382, 65470), (65474, 65479), (65482, 65487), (65490, 65495),
   (65498, 65500), (65536, 65547), (65549, 65574), (65576, 65594),
   (65596, 65597), (65599, 65613), (65616, 65629), (65664, 65786),
   (65799, 65843), (65856, 65912), (65930, 65931), (66176, 66204),
   (66208, 66256), (66273, 66299), (66304, 66339), (66349, 66378),
   (66384, 66421), (66432, 66461), (66464, 66499), (66504, 66511),
   (66513, 66517), (66560, 66717), (66720, 66729), (66736, 66771),
   (66776, 66811), (66816, 66855), (66864, 66915), (66928, 66938),
   (66940, 66954), (66956, 66962), (66964, 66965), (66967, 66977),
   (66979, 66993), (66995, 67001), (67003, 67004), (67072, 67382),
   (67392, 67413), (67424, 67431), (67456, 67461), (67463, 67504),
   (67506, 67514), (67584, 67589), (67592, 67592), (67594, 67637),
   (67639, 67640), (67644, 67644), (67647, 67669), (67672, 67702),
   (67705, 67742), (67751, 67759), (67808, 67826), (67828, 67829),
   (67835, 67867), (67872, 67897), (67968, 68023), (68028, 68047),
   (68050, 68096), (68112, 68115), (68117, 68119), (68121, 68149),
   (68160, 68168), (68192, 68222), (68224, 68255), (68288, 68295),
   (68297, 68324), (68331, 68335), (68352, 68405), (68416, 68437),
   (68440, 68466), (68472, 68497), (68521, 68527), (68608, 68680),
   (68736, 68786), (68800, 68850), (68858, 68899), (68912, 68921),
   (69216, 69246), (69248, 69289), (69296, 69297), (69376, 69415),
   (69424, 69445), (69457, 69460), (69488, 69505), (69552, 69579),
   (69600, 69622), (69635, 69687), (69714, 69743), (69745, 69746),
   (69749, 69749), (69763, 69807), (69840, 69864), (69872, 69881),
   (69891, 69926), (69942, 69951), (69956, 69956), (69959, 69959),
   (69968, 70002), (70006, 70006), (70019, 70066), (70081, 70084),
   (70096, 70106), (70108, 70108), (70113, 70132), (70144, 70161),
   (70163, 70187), (70272, 70278), (70280, 70280), (70282, 70285),
   (70287, 70301), (70303, 70312), (70320, 70366), (70384, 70393),
   (70405, 70412), (70415, 70416), (70419, 70440), (70442, 70448),
   (70450, 70451), (70453, 70457), (70461, 70461), (70480, 70480),
   (70493, 70497), (70656, 70708), (70727, 70730), (70736, 70745),
   (70751, 70753), (70784, 70831), (70852, 70853), (70855, 70855),
   (70864, 70873), (71040, 71086), (71128, 71131), (71168, 71215),
   (71236, 71236), (71248, 71257), (71296, 71338), (71352, 71352),
   (71360, 71369), (71424, 71450), (71472, 71483), (71488, 71494),
   (71680, 71723), (71840, 71922), (71935, 71942), (71945, 71945),
   (71948, 71955), (71957, 71958), (71960, 71983), (71999, 71999),
   (72001, 72001), (72016, 72025), (72096, 72103), (72106, 72144),
   (72161, 72161), (72163, 72163), (72192, 72192), (72203, 72242),
   (72250, 72250), (72272, 72272), (72284, 72329), (72349, 72349),
   (72368, 72440), (72704, 72712), (72714, 72750), (72768, 72768),
   (72784, 72812), (72818, 72847), (72960, 72966), (72968, 72969),
   (72971, 73008), (73030, 73030), (73040, 73049), (73056, 73061),
   (73063, 73064), (73066, 73097), (73112, 73112), (73120, 73129),
   (73440, 73458), (73648, 73648), (73664, 73684), (73728, 74649),
   (74752, 74862), (74880, 75075), (77712, 77808), (77824, 78894),
   (82944, 83526), (92160, 92728), (92736, 92766), (92768, 92777),
   (92784, 92862), (92864, 92873), (92880, 92909), (92928, 92975),
   (92992, 92995), (93008, 93017), (93019, 93025), (93027, 93047),
   (93053, 93071), (93760, 93846), (93952, 94026), (94032, 94032),
   (94099, 94111), (94176, 94177), (94179, 94179), (94208, 100343),
   (100352, 101589), (101632, 101640), (110576, 110579), (110581, 110587),
   (110589, 110590), (110592, 110882), (110928, 110930), (110948, 110951),
   (110960, 111355), (113664, 113770), (113776, 113788), (113792, 113800),
   (113808, 113817), (119520, 119539), (119648, 119672), (119808, 119892),
   (119894, 119964), (119966, 119967), (119970, 119970), (119973, 119974),
   (119977, 119980), (119982, 119993), (119995, 119995), (119997, 120003),
   (120005, 120069), (120071, 120074), (120077, 120084), (120086, 120092),
   (120094, 120121), (120123, 120126), (120128, 120132), (120134, 120134),
   (120138, 120144), (120146, 120485), (120488, 120512), (120514, 120538),
   (120540, 120570), (120572, 120596), (120598, 120628), (120630, 120654),
   (120656, 120686), (120688, 120712), (120714, 120744), (120746, 120770),
   (120772, 120779), (120782, 120831), (122624, 122654), (123136, 123180),
   (123191, 123197), (123200, 123209), (123214, 123214), (123536, 123565),
   (123584, 123627), (123632, 123641), (124896, 124902), (124904, 124907),
   (124909, 124910), (124912, 124926), (124928, 125124), (125127, 125135),
   (125184, 125251), (125259, 125259), (125264, 125273), (126065, 126123),
   (126125, 126127), (126129, 126132), (126209, 126253), (126255, 126269),
   (126464, 126467), (126469, 126495), (126497, 126498), (126500, 126500),
   (126503, 126503), (126505, 126514), (126516, 126519), (126521, 126521),
   (126523, 126523), (126530, 126530), (126535, 126535), (126537, 126537),
   (126539, 126539), (126541, 126543), (126545, 126546), (126548, 126548),
   (126551, 126551), (126553, 126553), (126555, 126555), (126557, 126557),
   (126559, 126559), (126561, 126562), (126564, 126564), (126567, 126570),
   (126572, 126578), (126580, 126583), (126585, 126588), (126590, 126590),
   (126592, 126601), (126603, 126619), (126625, 126627), (126629, 126633),
   (126635, 126651), (127232, 127244), (130032, 130041), (131072, 173791),
   (173824, 177976), (177984, 178205), (178208, 183969), (183984, 191456),
   (194560, 195101), (196608, 201546)]

/-- Python (Unicode) `\w` membership — the word class `\b` is defined
by. -/
def isWordChar (c : Char) : Bool := inRanges wordRanges c

/-- Word boundary between two optional characters (`\b`). -/
def bdry (a b : Option Char) : Bool :=
  (match a with | some c => isWordChar c | none => false) !=
  (match b with | some c => isWordChar c | none => false)

/-- A compiled redaction pattern: `\b body \b` plus its replacement. -/
structure RePattern where
  name : String
  body : RE
  replacement : List Char
deriving Repr, DecidableEq

/-- Try to match `\b body \b` at the current position: `prev` is the
character before the position; returns the matched length (Python takes
the first backtracking candidate whose trailing `\b` holds). -/
def matchAt (b : RE) (prev : Option Char) (rest : List Char) :
    Option Nat :=
  if bdry prev rest.head? then
    match (run b rest).find? (fun suffix =>
      bdry
        (match (rest.take (rest.length - suffix.length)).getLast? with
          | some c => some c
          | none => prev)
        suffix.head?) with
    | some suffix => some (rest.length - suffix.length)
    | none => none
  else none

/-- `re.subn` over char lists: scan left to right on the original text,
replace non-overlapping matches, count them.  After a match of length
`L ≥ 1` scanning resumes past it with the last consumed character as the
new left context; a zero-width match (impossible for the core patterns)
emits the replacement and copies one character. -/
def subnGo (pat : RePattern) : Option Char → List Char → List Char × Nat
  | prev, [] =>
    match matchAt pat.body prev [] with
    | some _ => (pat.replacement, 1)
    | none => ([], 0)
  | prev, x :: rs =>
    match matchAt pat.body prev (x :: rs) with
    | none =>
      let r := subnGo pat (some x) rs
      (x :: r.1, r.2)
    | some 0 =>
      let r := subnGo pat (some x) rs
      (pat.replacement ++ x :: r.1, r.2 + 1)
    | some (L + 1) =>
      let r := subnGo pat ((x :: rs).take (L + 1)).getLast?
        ((x :: rs).drop (L + 1))
      (pat.replacement ++ r.1, r.2 + 1)
  termination_by _ rest => rest.length
  decreasing_by all_goals (simp [List.length_drop]; try omega)

/-- `pattern.regex.subn(pattern.replacement, text)`. -/
def subn (pat : RePattern) (text : List Char) : List Char × Nat :=
  subnGo pat none text

/-! The nine core patterns, in catalog order. -/

/-- `mrn`: `\bMRN[:\s-]*\d{6,10}\b`, IGNORECASE. -/
def patMRN : RePattern :=
  ⟨"mrn",
   reCat [.cls (.litCI 'M'), .cls (.litCI 'R'), .cls (.litCI 'N'),
     .star .sepColonWsDash, reRange (.cls .digit) 6 10],
   "[MRN_REDACTED]".data⟩

/-- `dob`: `\b(?:DOB[:\s-]*)?\d\d[slash or dash]\d\d[slash or dash]\d\d\d\d\b`
(the separator class is `/` or `-`), IGNORECASE. -/
def patDOB : RePattern :=
  ⟨"dob",
   reCat [reOpt (reCat [.cls (.litCI 'D'), .cls (.litCI 'O'),
       .cls (.litCI 'B'), .star .sepColonWsDash]),
     reRep (.cls .digit) 2, .cls .slashDash, reRep (.cls .digit) 2,
     .cls .slashDash, reRep (.cls .digit) 4],
   "[DOB_REDACTED]".data⟩

/-- `nhs_number`: `\b\d{3}[\s-]?\d{3}[\s-]?\d{4}\b`. -/
def patNHS : RePattern :=
  ⟨"nhs_number",
   reCat [reRep (.cls .digit) 3, reOpt (.cls .wsDash),
     reRep (.cls .digit) 3, reOpt (.cls .wsDash), reRep (.cls .digit) 4],
   "[NHS_NUMBER_REDACTED]".data⟩

/-- `nino`: `\b[A-CEGHJ-PR-TW-Z]{2}\s?\d{2}\s?\d{2}\s?\d{2}\s?[A-D]\b`,
IGNORECASE. -/
def patNINO : RePattern :=
  ⟨"nino",
   reCat [reRep (.cls .ninoFirst) 2, reOpt (.cls .ws),
     reRep (.cls .digit) 2, reOpt (.cls .ws), reRep (.cls .digit) 2,
     reOpt (.cls .ws), reRep (.cls .digit) 2, reOpt (.cls .ws),
     .cls .ninoLast],
   "[NINO_REDACTED]".data⟩

/-- `ssn`: `\b\d{3}-\d{2}-\d{4}\b`. -/
def patSSN : RePattern :=
  ⟨"ssn",
   reCat [reRep (.cls .digit) 3, .cls (.litCh '-'), reRep (.cls .digit) 2,
     .cls (.litCh '-'), reRep (.cls .digit) 4],
   "[SSN_REDACTED]".data⟩

/-- `email`: `\b[A-Za-z0-9._%+-]+@[A-Za-z0-9.-]+\.[A-Z|a-z]{2,}\b`. -/
def patEmail : RePattern :=
  ⟨"email",
   reCat [rePlus .emailLocal, .cls (.litCh '@'), rePlus .emailDomain,
     .cls (.litCh '.'), .cls .emailTld, .cls .emailTld, .star .emailTld],
   "[EMAIL_REDACTED]".data⟩

/-- `phone_us`: `\b(?:\+1[-.\s]?)?\(?\d{3}\)?[-.\s]?\d{3}[-.\s]?\d{4}\b`. -/
def patPhoneUS : RePattern :=
  ⟨"phone_us",
   reCat [reOpt (reCat [.cls (.litCh '+'), .cls (.litCh '1'),
       reOpt (.cls .sepDotDashWs)]),
     reOpt (.cls (.litCh '(')), reRep (.cls .digit) 3,
     reOpt (.cls (.litCh ')')), reOpt (.cls .sepDotDashWs),
     reRep (.cls .digit) 3, reOpt (.cls .sepDotDashWs),
     reRep (.cls .digit) 4],
   "[PHONE_REDACTED]".data⟩

/-- `phone_uk`: `\b(?:\+44[-.\s]?|0)(?:\d[-.\s]?){9,10}\b`. -/
def patPhoneUK : RePattern :=
  ⟨"phone_uk",
   reCat [.alt (reCat [.cls (.litCh '+'), .cls (.litCh '4'),
       .cls (.litCh '4'), reOpt (.cls .sepDotDashWs)])
       (.cls (.litCh '0')),
     reRange (.seq (.cls .digit) (reOpt (.cls .sepDotDashWs))) 9 10],
   "[PHONE_UK_REDACTED]".data⟩

/-- `credit_card`: `\b(?:\d[-.\s]?){13,19}\b`. -/
def patCreditCard : RePattern :=
  ⟨"credit_card",
   reRange (.seq (.cls .digit) (reOpt (.cls .sepDotDashWs))) 13 19,
   "[CREDIT_CARD_REDACTED]".data⟩

/-- `_CORE_PATTERNS`, in evaluation order. -/
def corePatterns : List RePattern :=
  [patMRN, patDOB, patNHS, patNINO, patSSN, patEmail, patPhoneUS,
   patPhoneUK, patCreditCard]

/-- `RedactionEngine.redact_text` with the core catalog: apply each
pattern's `subn` in order, each pattern's substitutions feeding the next;
returns the redacted text and the accumulated hit count. -/
def redact_text (text : List Char) : List Char × Nat :=
  corePatterns.foldl
    (fun acc pat =>
      let r := subn pat acc.1
      (r.1, acc.2 + r.2))
    (text, 0)

/-! Specification views of the scanner used by the idempotency proof. -/

/-- A chunk of one `subn` scan: a copied character, or a replaced match
(recording the consumed input span). -/
inductive SChunk where
  | cop (c : Char)
  | rep (consumed : List Char)
deriving Repr, DecidableEq

/-- The chunk decomposition of a scan (mirrors `subnGo`). -/
def chunksGo (pat : RePattern) : Option Char → List Char → List SChunk
  | prev, [] =>
    match matchAt pat.body prev [] with
    | some _ => [.rep []]
    | none => []
  | prev, x :: rs =>
    match matchAt pat.body prev (x :: rs) with
    | none => .cop x :: chunksGo pat (some x) rs
    | some 0 => .rep [] :: .cop x :: chunksGo pat (some x) rs
    | some (L + 1) =>
      .rep ((x :: rs).take (L + 1)) ::
        chunksGo pat ((x :: rs).take (L + 1)).getLast?
          ((x :: rs).drop (L + 1))
  termination_by _ rest => rest.length
  decreasing_by all_goals (simp [List.length_drop]; try omega)

/-- The input text a chunk list covers. -/
def renderIn : List SChunk → List Char
  | [] => []
  | .cop c :: ch => c :: renderIn ch
  | .rep cs :: ch => cs ++ renderIn ch

/-- The output text a chunk list produces for a given replacement. -/
def renderOut (repl : List Char) : List SChunk → List Char
  | [] => []
  | .cop c :: ch => c :: renderOut repl ch
  | .rep _ :: ch => repl ++ renderOut repl ch

/-- The left context after walking over `pre` starting from `prev`. -/
def lastOr (prev : Option Char) (pre : List Char) : Option Char :=
  match pre.getLast? with
  | some c => some c
  | none => prev

/-- No match of `\b b \b` anywhere in `t`, scanned with initial left
context `prev`. -/
def NoMatchFrom (b : RE) (prev : Option Char) (t : List Char) : Prop :=
  ∀ pre suf, t = pre ++ suf → matchAt b (lastOr prev pre) suf = none

/-- Well-formedness of a chunk list w.r.t. a pattern and entry context:
copied characters are scan failures, replaced spans are the recorded
matches. -/
def ChunksWF (pat : RePattern) : Option Char → List SChunk → Prop
  | _, [] => True
  | prev, .cop c :: ch =>
    matchAt pat.body prev (c :: renderIn ch) = none ∧
    ChunksWF pat (some c) ch
  | prev, .rep cs :: ch =>
    matchAt pat.body prev (cs ++ renderIn ch) = some cs.length ∧
    cs ≠ [] ∧ ChunksWF pat cs.getLast? ch

/-- Which strings a regex body can consume. -/
inductive Accepts : RE → List Char → Prop where
  | eps : Accepts .eps []
  | cls {c : CC} {ch : Char} : CC.mem c ch = true → Accepts (.cls c) [ch]
  | seq {a b : RE} {u v : List Char} :
      Accepts a u → Accepts b v → Accepts (.seq a b) (u ++ v)
  | altL {a b : RE} {u : List Char} : Accepts a u → Accepts (.alt a b) u
  | altR {a b : RE} {u : List Char} : Accepts b u → Accepts (.alt a b) u
  | starNil {c : CC} : Accepts (.star c) []
  | starCons {c : CC} {ch : Char} {l : List Char} :
      CC.mem c ch = true → Accepts (.star c) l →
      Accepts (.star c) (ch :: l)

/-- A digit or `@`: the characters every core pattern must consume at
least one of, and that no replacement token contains. -/
def isDigitAt (ch : Char) : Bool := isUniDigit ch || ch == '@'

/-- Classes all of whose members are digits or `@`. -/
def ccDigitAt : CC → Bool
  | .digit => true
  | .litCh a => isAsciiDigit a || a == '@'
  | _ => false

/-- Syntactic inevitability: every string the body accepts contains a
digit or `@`. -/
def REInevDigitAt : RE → Bool
  | .eps => false
  | .cls c => ccDigitAt c
  | .seq a b => REInevDigitAt a || REInevDigitAt b
  | .alt a b => REInevDigitAt a && REInevDigitAt b
  | .star _ => false

/-- Classes none of whose members are square brackets. -/
def ccNoBracket : CC → Bool
  | .litCh a => !(a == '[') && !(a == ']')
  | .litCI a => !(a == '[') && !(a == ']') && !(a.toNat == 59) &&
      !(a.toNat == 61)
  | _ => true

/-- Syntactic check: the body can never consume a square bracket. -/
def reNoBracket : RE → Bool
  | .eps => true
  | .cls c => ccNoBracket c
  | .seq a b => reNoBracket a && reNoBracket b
  | .alt a b => reNoBracket a && reNoBracket b
  | .star c => ccNoBracket c

/-- Shape check for replacement tokens: `[` then letters/underscore (no
digits, no `@`, no brackets) then `]`. -/
def replTail : List Char → Bool
  | [] => false
  | [ch] => ch == ']'
  | ch :: rest =>
    !(isDigitAt ch) && !(ch == '[') && !(ch == ']') && replTail rest

/-- A replacement token is `[` followed by a bracket-, digit- and `@`-free
body and a closing `]`. -/
def replOKb : List Char → Bool
  | '[' :: rest => replTail rest
  | _ => false

/-- The properties of a catalog pattern the idempotency proof uses. -/
def PatOK (pat : RePattern) : Prop :=
  REInevDigitAt pat.body = true ∧ reNoBracket pat.body = true ∧
  replOKb pat.replacement = true

/-! ## Theorems -/

theorem alGet?_set_self {β : Type} (l : List (String × β)) (k : String)
    (v : β) : alGet? (alSet l k v) k = some v := by
  induction l with
  | nil => simp [alSet, alGet?, List.find?]
  | cons p rest ih =>
    by_cases h : p.1 = k
    · simp [alSet, h, alGet?, List.find?]
    · have hb : (p.1 == k) = false := by simp [h]
      simp only [alSet, hb, if_neg, Bool.false_eq_true, ite_false]
      simpa [alGet?, List.find?, hb] using ih

theorem alGet?_set_ne {β : Type} (l : List (String × β)) (k k' : String)
    (v : β) (hne : k' ≠ k) : alGet? (alSet l k v) k' = alGet? l k' := by
  induction l with
  | nil =>
    have hb : (k == k') = false := by simp [Ne.symm hne]
    simp [alSet, alGet?, List.find?, hb]
  | cons p rest ih =>
    by_cases h : p.1 = k
    · have hb : (p.1 == k) = true := by simp [h]
      have hbk : (k == k') = false := by simp [Ne.symm hne]
      have hpk : (p.1 == k') = false := by simp [h, Ne.symm hne]
      simp [alSet, hb, alGet?, List.find?, hbk, hpk]
    · have hb : (p.1 == k) = false := by simp [h]
      by_cases h' : p.1 = k'
      · have hp' : (p.1 == k') = true := by simp [h']
        simp only [alSet, hb, Bool.false_eq_true, ite_false]
        simp [alGet?, List.find?, hp']
      · have hp' : (p.1 == k') = false := by simp [h']
        simp only [alSet, hb, Bool.false_eq_true, ite_false]
        simpa [alGet?, List.find?, hp'] using ih

theorem bucketFor_setBucket_self (t : TokenBudgetTracker) (tenant : String)
    (b : TenantBucket) : (t.setBucket tenant b).bucketFor tenant = b := by
  simp [TokenBudgetTracker.bucketFor, TokenBudgetTracker.setBucket,
    alGet?_set_self]

theorem bucketFor_setBucket_ne (t : TokenBudgetTracker) (tenant x : String)
    (b : TenantBucket) (h : x ≠ tenant) :
    (t.setBucket tenant b).bucketFor x = t.bucketFor x := by
  simp [TokenBudgetTracker.bucketFor, TokenBudgetTracker.setBucket,
    alGet?_set_ne _ _ _ _ h]

/-- **C4.** `TokenBudgetTracker.check` prunes exactly the entries with
`timestamp < now - window_seconds` from the tenant's bucket, raises
`BudgetExceededError{tenant_id, used, ceiling, window_seconds}` if and only
if the surviving tokens plus the request strictly exceed the effective
ceiling (equality does not raise), and never appends a usage entry: every
tenant's bucket after `check` is a sublist of its bucket before. -/
theorem check_prunes_raises_iff_never_appends (t : TokenBudgetTracker)
    (tenant : String) (requested : Int) (now : Rat) :
    let cutoff := now - (t.window_seconds : Rat)
    let survivors :=
      (t.bucketFor tenant).entries.filter (fun e => cutoff ≤ e.timestamp)
    let used := (survivors.map (·.tokens)).sum
    let out := t.check tenant requested now
    ((out.1.bucketFor tenant).entries = survivors) ∧
    (out.2 = if used + requested > t.ceiling_for tenant then
        some ⟨tenant, used, t.ceiling_for tenant, t.window_seconds⟩
      else none) ∧
    (∀ x : String,
      (out.1.bucketFor x).entries.Sublist (t.bucketFor x).entries) := by
  intro cutoff survivors used out
  have hprune : (out.1.bucketFor tenant).entries = survivors := by
    show ((t.check tenant requested now).1.bucketFor tenant).entries
      = survivors
    simp only [TokenBudgetTracker.check]
    split
    · simp [bucketFor_setBucket_self, TenantBucket.prune, survivors, cutoff]
    · simp [bucketFor_setBucket_self, TenantBucket.prune, survivors, cutoff]
  refine ⟨hprune, ?_, ?_⟩
  · show (t.check tenant requested now).2 = _
    simp only [TokenBudgetTracker.check, TenantBucket.prune,
      TenantBucket.total_tokens]
    split <;> simp_all [used, survivors, cutoff]
  · intro x
    by_cases hx : x = tenant
    · subst hx
      rw [hprune]
      exact List.filter_sublist _
    · show ((t.check tenant requested now).1.bucketFor x).entries.Sublist _
      simp only [TokenBudgetTracker.check]
      split <;> simp [bucketFor_setBucket_ne _ _ _ _ hx, List.Sublist.refl]

/-- Witness for C4 at a concrete tracker state. -/
theorem check_prunes_raises_iff_never_appends_witness :
    (((TokenBudgetTracker.mk 10 3600 [] [("a", ⟨[⟨5, 4⟩, ⟨3700, 3⟩]⟩)]).check
        "a" 8 3700).2 =
      some ⟨"a", 3, 10, 3600⟩) := by
  have h := check_prunes_raises_iff_never_appends
    (TokenBudgetTracker.mk 10 3600 [] [("a", ⟨[⟨5, 4⟩, ⟨3700, 3⟩]⟩)])
    "a" 8 3700
  have h2 := h.2.1
  rw [h2]
  norm_num [TokenBudgetTracker.bucketFor, TokenBudgetTracker.ceiling_for,
    alGet?, alGetD, List.find?, List.filter]

/-- **C10.** For a tenant whose effective ceiling is zero, `summary` on the
in-memory tracker and on the Redis-backed tracker returns
`utilization_pct = 0.0` rather than dividing by the ceiling, and `remaining`
is clamped to at least 0; both summaries are total functions. -/
theorem summary_zero_ceiling_total (t : TokenBudgetTracker) (tenant : String)
    (now : Rat) (window ceiling : Int) (members : List String)
    (h : t.ceiling_for tenant = 0) (hr : ceiling = 0) :
    (t.summary tenant now).utilization_pct = 0 ∧
    0 ≤ (t.summary tenant now).remaining ∧
    (redisSummary tenant window ceiling members).utilization_pct = 0 ∧
    0 ≤ (redisSummary tenant window ceiling members).remaining := by
  subst hr
  refine ⟨?_, ?_, ?_, ?_⟩
  · simp [TokenBudgetTracker.summary, h]
  · simp [TokenBudgetTracker.summary, le_max_left]
  · simp [redisSummary]
  · simp [redisSummary, le_max_left]

theorem mem_insertByPriority (x z : ProviderEntry) (l : List ProviderEntry)
    (h : z ∈ insertByPriority x l) : z = x ∨ z ∈ l := by
  induction l with
  | nil => simpa [insertByPriority] using h
  | cons y ys ih =>
    by_cases hc : y.priority < x.priority
    · simp only [insertByPriority, if_pos hc, List.mem_cons] at h
      rcases h with h | h
      · exact Or.inr (by simp [h])
      · rcases ih h with h' | h'
        · exact Or.inl h'
        · exact Or.inr (List.mem_cons_of_mem _ h')
    · simp only [insertByPriority, if_neg hc, List.mem_cons] at h
      rcases h with h | h | h
      · exact Or.inl h
      · exact Or.inr (by simp [h])
      · exact Or.inr (List.mem_cons_of_mem _ h)

theorem pairwise_insertByPriority (x : ProviderEntry)
    (l : List ProviderEntry)
    (h : l.Pairwise (fun a b => a.priority ≤ b.priority)) :
    (insertByPriority x l).Pairwise (fun a b => a.priority ≤ b.priority) := by
  induction l with
  | nil => simp [insertByPriority]
  | cons y ys ih =>
    rcases List.pairwise_cons.mp h with ⟨hy, hys⟩
    by_cases hc : y.priority < x.priority
    · simp only [insertByPriority, if_pos hc]
      refine List.pairwise_cons.mpr ⟨?_, ih hys⟩
      intro z hz
      rcases mem_insertByPriority x z ys hz with h' | h'
      · subst h'; exact le_of_lt hc
      · exact hy z h'
    · simp only [insertByPriority, if_neg hc]
      refine List.pairwise_cons.mpr ⟨?_, h⟩
      intro z hz
      rcases List.mem_cons.mp hz with h' | h'
      · subst h'; exact le_of_not_lt hc
      · exact le_trans (le_of_not_lt hc) (hy z h')

theorem pairwise_sortByPriority (l : List ProviderEntry) :
    (sortByPriority l).Pairwise (fun a b => a.priority ≤ b.priority) := by
  induction l with
  | nil => simp [sortByPriority]
  | cons x xs ih => exact pairwise_insertByPriority x _ ih

/-- The `routeLoop` success case: the attempt list extends `attempts` by a
non-empty prefix of the remaining chain, `attempts` counts it, and the
returned provider is its last element. -/
theorem routeLoop_ok_shape {R : Type}
    (call : ProviderEntry → Except ProviderError R) (retryable : List Int) :
    ∀ (chain : List ProviderEntry) (attempts : List String)
      (last : ProviderError) (res : ProviderRoutingResult R),
      routeLoop call retryable chain attempts last = .ok res →
      ∃ p : List ProviderEntry, p ≠ [] ∧ p.IsPrefix chain ∧
        res.fallback_chain = attempts ++ p.map (·.name) ∧
        res.attempts = res.fallback_chain.length ∧
        (p.map (·.name)).getLast? = some res.provider_name := by
  intro chain
  induction chain with
  | nil => intro attempts last res h; simp [routeLoop] at h
  | cons entry rest ih =>
    intro attempts last res h
    rw [show routeLoop call retryable (entry :: rest) attempts last =
        (match call entry with
         | .ok result => .ok ⟨entry.name, result, attempts ++ [entry.name],
             (attempts ++ [entry.name]).length⟩
         | .error exc =>
           if retryable.contains exc.status_code then
             routeLoop call retryable rest (attempts ++ [entry.name]) exc
           else .error exc) from rfl] at h
    cases hc : call entry with
    | ok result =>
      rw [hc] at h
      simp only [Except.ok.injEq] at h
      subst h
      exact ⟨[entry], by simp, by simp, by simp, by simp, by simp⟩
    | error exc =>
      rw [hc] at h
      dsimp only at h
      cases hr : retryable.contains exc.status_code with
      | true =>
        rw [hr] at h
        simp only [if_pos] at h
        obtain ⟨p, hne, hpre, hfc, hat, hlast⟩ :=
          ih (attempts ++ [entry.name]) exc res h
        refine ⟨entry :: p, by simp, ?_, ?_, hat, ?_⟩
        · exact (List.prefix_cons_inj entry).mpr hpre
        · simpa [List.append_assoc] using hfc
        · cases p with
          | nil => exact absurd rfl hne
          | cons q qs => simpa using hlast
      | false =>
        rw [hr] at h
        simp at h

/-- **C3.** When `route_with_fallback` returns a result, its
`fallback_chain` is a non-empty prefix of the names of the eligible chain,
`attempts` is its length and `provider_name` its last element; the eligible
chain starts with the primary entry when present, enabled and eligible and
continues with the remaining eligible entries ascending by priority; during
iteration a retryable `ProviderError` (status in {429, 502, 503}) continues
with the next entry while any other `ProviderError` is raised
immediately. -/
theorem route_with_fallback_spec {R : Type} (r : ProviderRegistry)
    (primary model : String) (allowed : Option (List String))
    (call : ProviderEntry → Except ProviderError R) :
    (∀ res, route_with_fallback r primary model allowed call = .ok res →
      res.fallback_chain ≠ [] ∧
      res.fallback_chain.IsPrefix
        ((r.eligible_chain primary .chat model false allowed).map (·.name)) ∧
      res.attempts = res.fallback_chain.length ∧
      res.fallback_chain.getLast? = some res.provider_name) ∧
    (∀ pe, alGet? r.providers primary = some pe → pe.enabled = true →
      r.eligible_chain primary .chat model false allowed =
        (if isEligible pe .chat model false allowed then [pe] else []) ++
        (sortByPriority ((r.values.filter (·.enabled)).filter
          (fun e => e.name ≠ primary))).filter
          (fun e => isEligible e .chat model false allowed) ∧
      ((sortByPriority ((r.values.filter (·.enabled)).filter
          (fun e => e.name ≠ primary))).filter
          (fun e => isEligible e .chat model false allowed)).Pairwise
        (fun a b => a.priority ≤ b.priority)) ∧
    (∀ entry rest attempts last exc, call entry = .error exc →
      ([429, 502, 503] : List Int).contains exc.status_code = true →
      routeLoop call [429, 502, 503] (entry :: rest) attempts last =
        routeLoop call [429, 502, 503] rest (attempts ++ [entry.name]) exc) ∧
    (∀ entry rest attempts last exc, call entry = .error exc →
      ([429, 502, 503] : List Int).contains exc.status_code = false →
      routeLoop call [429, 502, 503] (entry :: rest) attempts last =
        .error exc) := by
  refine ⟨?_, ?_, ?_, ?_⟩
  · intro res h
    simp only [route_with_fallback] at h
    set chain := r.eligible_chain primary .chat model false allowed with hch
    cases hc : chain with
    | nil => rw [hc] at h; simp at h
    | cons entry rest =>
      rw [hc] at h
      obtain ⟨p, hne, hpre, hfc, hat, hlast⟩ :=
        routeLoop_ok_shape call [429, 502, 503] (entry :: rest) []
          noProviderMatchError res h
      rw [List.nil_append] at hfc
      refine ⟨?_, ?_, hat, ?_⟩
      · simp [hfc, hne]
      · rw [hfc]
        exact hpre.map _
      · rw [hfc]
        cases p with
        | nil => exact absurd rfl hne
        | cons q qs => simpa using hlast
  · intro pe hget hen
    have hfb : r.fallback_chain primary =
        pe :: sortByPriority ((r.values.filter (·.enabled)).filter
          (fun e => e.name ≠ primary)) := by
      simp only [ProviderRegistry.fallback_chain, hget, hen, if_true]
    constructor
    · show (r.fallback_chain primary).filter _ = _
      rw [hfb, List.filter_cons]
      split <;> simp
    · exact List.Pairwise.filter _ (pairwise_sortByPriority _)
  · intro entry rest attempts last exc hc hr
    rw [show routeLoop call [429, 502, 503] (entry :: rest) attempts last =
        (match call entry with
         | .ok result => .ok ⟨entry.name, result, attempts ++ [entry.name],
             (attempts ++ [entry.name]).length⟩
         | .error exc =>
           if ([429, 502, 503] : List Int).contains exc.status_code then
             routeLoop call [429, 502, 503] rest (attempts ++ [entry.name])
               exc
           else .error exc) from rfl]
    rw [hc]
    dsimp only
    rw [hr]
    simp
  · intro entry rest attempts last exc hc hr
    rw [show routeLoop call [429, 502, 503] (entry :: rest) attempts last =
        (match call entry with
         | .ok result => .ok ⟨entry.name, result, attempts ++ [entry.name],
             (attempts ++ [entry.name]).length⟩
         | .error exc =>
           if ([429, 502, 503] : List Int).contains exc.status_code then
             routeLoop call [429, 502, 503] rest (attempts ++ [entry.name])
               exc
           else .error exc) from rfl]
    rw [hc]
    dsimp only
    rw [hr]
    simp

/-- Witness for C3: a two-provider registry where the primary fails with a
retryable 503 and the secondary succeeds. -/
theorem route_with_fallback_spec_witness :
    (route_with_fallback (R := Nat)
        ⟨[("p", ⟨"p", {}, {}, 0, true⟩), ("s", ⟨"s", {}, {}, 1, true⟩)]⟩
        "p" "m" none
        (fun e => if e.name = "p" then .error ⟨503, "down", "down", "provider"⟩
          else .ok 7) =
      .ok ⟨"s", 7, ["p", "s"], 2⟩) ∧
    (["p", "s"] ≠ [] ∧
      (["p", "s"] : List String).IsPrefix
        (((ProviderRegistry.mk
            [("p", ⟨"p", {}, {}, 0, true⟩), ("s", ⟨"s", {}, {}, 1, true⟩)]
          ).eligible_chain "p" .chat "m" false none).map (·.name)) ∧
      (2 : Nat) = (["p", "s"] : List String).length ∧
      (["p", "s"] : List String).getLast? = some "s") := by
  have hrun : route_with_fallback (R := Nat)
      ⟨[("p", ⟨"p", {}, {}, 0, true⟩), ("s", ⟨"s", {}, {}, 1, true⟩)]⟩
      "p" "m" none
      (fun e => if e.name = "p" then .error ⟨503, "down", "down", "provider"⟩
        else .ok 7) =
      .ok ⟨"s", 7, ["p", "s"], 2⟩ := by
    simp [route_with_fallback, ProviderRegistry.eligible_chain,
      ProviderRegistry.fallback_chain, ProviderRegistry.values, alGet?,
      List.find?, sortByPriority, insertByPriority, isEligible,
      ProviderCapabilities.supports_model, routeLoop, List.filter]
  refine ⟨hrun, ?_⟩
  have h := (route_with_fallback_spec (R := Nat)
      ⟨[("p", ⟨"p", {}, {}, 0, true⟩), ("s", ⟨"s", {}, {}, 1, true⟩)]⟩
      "p" "m" none
      (fun e => if e.name = "p" then .error ⟨503, "down", "down", "provider"⟩
        else .ok 7)).1 ⟨"s", 7, ["p", "s"], 2⟩ hrun
  simpa using h

/-- Witness for C10 at a concrete zero-ceiling tracker. -/
theorem summary_zero_ceiling_total_witness :
    ((TokenBudgetTracker.mk 0 3600 [] []).ceiling_for "a" = 0) ∧
    ((TokenBudgetTracker.mk 0 3600 [] []).summary "a" 0).utilization_pct
      = 0 := by
  have h0 : (TokenBudgetTracker.mk 0 3600 [] []).ceiling_for "a" = 0 := by
    simp [TokenBudgetTracker.ceiling_for, alGetD, alGet?, List.find?]
  exact ⟨h0,
    (summary_zero_ceiling_total (TokenBudgetTracker.mk 0 3600 [] [])
      "a" 0 3600 0 [] h0 rfl).1⟩

/-- **C6 counterexample.** The in-repo providers raise HTTP 429 as
`ProviderError(status_code=429, code="provider_rate_limited",
error_type="rate_limit")`; the mapper preserves the provider's `code`, so
the resulting `AppError` does not carry code `rate_limit` as the claim
states. -/
theorem appError429_code_not_rate_limit :
    (appErrorFromProviderError
        ⟨429, "provider_rate_limited", "Rate limited by provider",
          "rate_limit"⟩).status_code = 429 ∧
    (appErrorFromProviderError
        ⟨429, "provider_rate_limited", "Rate limited by provider",
          "rate_limit"⟩).code ≠ "rate_limit" := by
  constructor
  · rfl
  · decide

/-- **C6 (amended).** `ProviderError` maps to the returned `AppError` by
status: 429, 501, 502 and 503 keep their status and the provider error's
own `code` and `error_type`; every other status maps to 502 with code
`provider_upstream_error`; the except-branch queues a `provider_error`
webhook (when a dispatcher is configured and firing) before the mapped
error is raised. -/
theorem provider_error_mapping_spec (exc : ProviderError)
    (dispatcherConfigured : Bool) (shouldFire : WebhookEventType → Bool)
    (q : List WebhookEventType) :
    (exc.status_code = 429 ∨ exc.status_code = 501 ∨
        exc.status_code = 502 ∨ exc.status_code = 503 →
      appErrorFromProviderError exc =
        ⟨exc.status_code, exc.code, exc.error_type, exc.message⟩) ∧
    (¬(exc.status_code = 429 ∨ exc.status_code = 501 ∨
        exc.status_code = 502 ∨ exc.status_code = 503) →
      appErrorFromProviderError exc =
        ⟨502, "provider_upstream_error", "provider", exc.message⟩) ∧
    (handleChatProviderErrorBranch dispatcherConfigured shouldFire q exc =
      (queueWebhookEvent dispatcherConfigured shouldFire .provider_error q,
       appErrorFromProviderError exc)) ∧
    (dispatcherConfigured = true → shouldFire .provider_error = true →
      (handleChatProviderErrorBranch dispatcherConfigured shouldFire q
          exc).1 = q ++ [.provider_error]) := by
  refine ⟨?_, ?_, rfl, ?_⟩
  · intro h
    simp [appErrorFromProviderError, h]
  · intro h
    simp [appErrorFromProviderError, h]
  · intro hd hf
    simp [handleChatProviderErrorBranch, queueWebhookEvent, hd, hf]

/-- Witness for the amended C6 at a concrete 503 provider error. -/
theorem provider_error_mapping_spec_witness :
    appErrorFromProviderError ⟨503, "down", "unavailable", "provider"⟩ =
      ⟨503, "down", "provider", "unavailable"⟩ ∧
    (handleChatProviderErrorBranch true (fun _ => true) []
        ⟨503, "down", "unavailable", "provider"⟩).1 = [.provider_error] := by
  have h := provider_error_mapping_spec
    ⟨503, "down", "unavailable", "provider"⟩ true (fun _ => true) []
  exact ⟨h.1 (by decide), h.2.2.2 rfl rfl⟩

/-- **C9.** On every successful request the recorded `cost_usd` equals the
spec formula: `round((tokens_in + tokens_out) * 1e-6, 8)` on the chat path
(non-streaming and streaming) and `round(tokens_in * 2e-7, 8)` on the
embeddings path, with the token counts taken from the provider-reported
usage. -/
theorem cost_usd_matches_spec (usage : ProviderUsage) (p c ti : Int) :
    chatCostUsd usage =
      specChatCost usage.prompt_tokens usage.completion_tokens ∧
    streamCostUsd p c = specChatCost p c ∧
    embeddingsCostUsd ti = specEmbeddingsCost ti :=
  ⟨rfl, rfl, rfl⟩

/-- No line of a chained log is junk. -/
theorem chained_no_junk :
    ∀ (file : List RawLine) (s : String), ChainedFrom s file →
    ∀ t, RawLine.junk t ∉ file := by
  intro file
  induction file with
  | nil => intro s _ t h; simp at h
  | cons x rest ih =>
    intro s hch t hmem
    cases x with
    | junk s' => exact absurd hch (by simp [ChainedFrom])
    | line e =>
      obtain ⟨-, hrest⟩ := hch
      rcases List.mem_cons.mp hmem with h | h
      · exact absurd h (by simp)
      · exact ih _ hrest t h

/-- Every data frame differs from the `[DONE]` sentinel: an SSE data frame
reads `data: \x7b…` while the sentinel reads `data: [DONE]`. -/
theorem sseEvent_ne_done (c : Event) : sseEvent c ≠ doneFrame := by
  intro h
  have h7 : (sseEvent c).data.get? 6 = doneFrame.data.get? 6 := by rw [h]
  have hl : (sseEvent c).data.get? 6 = some '\x7b' := rfl
  have hr : doneFrame.data.get? 6 = some '[' := rfl
  rw [hl, hr] at h7
  exact absurd h7 (by decide)

theorem mem_streamDataFrames {f : String} {first_chunk : Option Event}
    {chunks : List Event} (h : f ∈ streamDataFrames first_chunk chunks) :
    ∃ c, f = sseEvent c := by
  unfold streamDataFrames at h
  rcases List.mem_append.mp h with h | h
  · cases first_chunk with
    | some c =>
      rcases List.mem_singleton.mp h with rfl
      exact ⟨c, rfl⟩
    | none => simp at h
  · rcases List.mem_map.mp h with ⟨c, -, rfl⟩
    exact ⟨c, rfl⟩

theorem mem_tryBody {f : String} {first_chunk : Option Event}
    {chunks : List Event} {citations : List JVal} {chunk_id : String}
    {chunk_created : Int} {model : String}
    (h : f ∈ tryBody first_chunk chunks citations chunk_id chunk_created
      model) : ∃ c, f = sseEvent c := by
  simp only [tryBody] at h
  rcases List.mem_append.mp h with h | h
  · rcases List.mem_append.mp h with h | h
    · exact mem_streamDataFrames h
    · split at h
      · rcases List.mem_singleton.mp h with rfl
        exact ⟨_, rfl⟩
      · simp at h
  · split at h
    · rcases List.mem_singleton.mp h with rfl
      exact ⟨_, rfl⟩
    · simp at h

theorem take_concat_last_iff {A : List String} {d : String} {k : Nat}
    (hA : ∀ f ∈ A, f ≠ d) :
    ((A ++ [d]).take k).getLast? = some d ↔ (A ++ [d]).take k = A ++ [d]
    := by
  by_cases hk : k ≤ A.length
  · rw [List.take_append_of_le_length hk]
    constructor
    · intro hlast
      exfalso
      obtain ⟨hne, heq⟩ :=
        List.mem_getLast?_eq_getLast (Option.mem_def.mpr hlast)
      have hmem : d ∈ A.take k := by
        rw [heq]
        exact List.getLast_mem hne
      exact hA d (List.take_subset _ _ hmem) rfl
    · intro heq
      exfalso
      have h1 := congrArg List.length heq
      rw [List.length_take, List.length_append, List.length_singleton]
        at h1
      omega
  · rw [List.take_of_length_le
      (by rw [List.length_append, List.length_singleton]; omega)]
    simp [List.getLast?_concat]

/-- **C2 (amended).** If no exception propagated through the streaming
generator, the emitted frame sequence ends with the `data: [DONE]\n\n`
sentinel; the frames end with the sentinel exactly when every frame of
the try block was delivered (the spec's iff fails in one direction: an
exception delivered at the final suspended yield arrives after the
sentinel frame was handed to the transport, see the counterexample); and
in every termination case (normal end, provider error mid-stream, client
disconnect/cancellation) the finally block calls `write_event` exactly
once with an event carrying `streaming=true` (appended when it passes
schema validation) and records budget usage. -/
theorem event_stream_spec (first_chunk : Option Event) (chunks : List Event)
    (citations : List JVal) (chunk_id : String) (chunk_created : Int)
    (model : String) (auditOk : Bool) (fate : StreamFate) :
    ((eventStream first_chunk chunks citations chunk_id chunk_created model
        auditOk fate).raised = false →
      (eventStream first_chunk chunks citations chunk_id chunk_created model
        auditOk fate).frames.getLast? = some doneFrame) ∧
    ((eventStream first_chunk chunks citations chunk_id chunk_created model
        auditOk fate).frames.getLast? = some doneFrame ↔
      (eventStream first_chunk chunks citations chunk_id chunk_created model
        auditOk fate).frames =
        tryFrames first_chunk chunks citations chunk_id chunk_created
          model) ∧
    (eventStream first_chunk chunks citations chunk_id chunk_created model
      auditOk fate).audit_calls.length = 1 ∧
    (∀ e ∈ (eventStream first_chunk chunks citations chunk_id chunk_created
        model auditOk fate).audit_calls,
      alGet? e "streaming" = some (.bool true)) ∧
    (eventStream first_chunk chunks citations chunk_id chunk_created model
      auditOk fate).budget_recorded = true ∧
    (auditOk = true →
      (eventStream first_chunk chunks citations chunk_id chunk_created model
        auditOk fate).audit_written = 1) := by
  refine ⟨?_, ?_, rfl, ?_, rfl, ?_⟩
  · cases fate with
    | complete =>
      intro _
      show (tryBody first_chunk chunks citations chunk_id chunk_created
        model ++ [doneFrame]).getLast? = some doneFrame
      exact List.getLast?_concat _
    | failAfter k exc =>
      intro h
      exact absurd h (by simp [eventStream])
  · cases fate with
    | complete =>
      constructor
      · intro _
        rfl
      · intro _
        show (tryBody first_chunk chunks citations chunk_id chunk_created
          model ++ [doneFrame]).getLast? = some doneFrame
        exact List.getLast?_concat _
    | failAfter k exc =>
      show ((tryBody first_chunk chunks citations chunk_id chunk_created
          model ++ [doneFrame]).take k).getLast? = some doneFrame ↔
        (tryBody first_chunk chunks citations chunk_id chunk_created
          model ++ [doneFrame]).take k =
        tryBody first_chunk chunks citations chunk_id chunk_created
          model ++ [doneFrame]
      exact take_concat_last_iff
        (fun f hf => by
          obtain ⟨c, hc⟩ := mem_tryBody hf
          exact hc ▸ sseEvent_ne_done c)
  · intro e he
    rcases List.mem_singleton.mp he with rfl
    rfl
  · intro h
    simp [eventStream, h]

/-- Counterexample to C2's original iff: a client disconnect or
cancellation delivered at the final suspended yield — after
`data: [DONE]\n\n` was already handed to the transport — leaves the
emitted frames ending with the sentinel while the exception still
propagates through the generator (recorded by `except BaseException` and
re-raised). -/
theorem event_stream_done_yet_raised :
    (eventStream none [] [] "id" 0 "m" true
      (.failAfter 2 "GeneratorExit")).frames.getLast? = some doneFrame ∧
    (eventStream none [] [] "id" 0 "m" true
      (.failAfter 2 "GeneratorExit")).raised = true := ⟨rfl, rfl⟩

/-- Witness for C2: a stream that completes normally discharges the
hypotheses of the first and last conjuncts; the sentinel iff is
exercised on a disconnect before any frame was yielded. -/
theorem event_stream_spec_witness :
    (eventStream none [] [] "id" 0 "m" true .complete).frames.getLast? =
      some doneFrame ∧
    ((eventStream none [] [] "id" 0 "m" true
        (.failAfter 0 "ClientDisconnect")).frames.getLast? =
        some doneFrame ↔
      (eventStream none [] [] "id" 0 "m" true
        (.failAfter 0 "ClientDisconnect")).frames =
        tryFrames none [] [] "id" 0 "m") ∧
    (eventStream none [] [] "id" 0 "m" true .complete).audit_written = 1
    := by
  refine ⟨(event_stream_spec none [] [] "id" 0 "m" true .complete).1 rfl,
    (event_stream_spec none [] [] "id" 0 "m" true
      (.failAfter 0 "ClientDisconnect")).2.1,
    (event_stream_spec none [] [] "id" 0 "m" true .complete).2.2.2.2.2 rfl⟩

/-- **C7.** When the audit event fails schema validation on the
non-streaming success path, the handler refuses the response with a 502
`audit_write_failed` error and the invalid event is never appended
(validation precedes the file append); when it validates, the line is
appended; on the streaming finally path the same failure merely skips the
append (logged at warning level) and leaves the frame sequence and the
propagation behaviour of the stream unchanged. -/
theorem audit_failure_fail_closed :
    (∀ (validate : Event → Bool) (u c : String) (file : List RawLine)
        (e : Event), validate (writePayload u c file e) = false →
      handleChatAuditStep validate u c file e =
        (file, .error auditWriteFailedError)) ∧
    (∀ (validate : Event → Bool) (u c : String) (file : List RawLine)
        (e : Event), validate (writePayload u c file e) = true →
      handleChatAuditStep validate u c file e =
        (file ++ [.line (writePayload u c file e)],
          .ok (writePayload u c file e))) ∧
    (∀ (first_chunk : Option Event) (chunks : List Event)
        (citations : List JVal) (chunk_id : String) (chunk_created : Int)
        (model : String) (fate : StreamFate),
      (eventStream first_chunk chunks citations chunk_id chunk_created model
        false fate).audit_written = 0 ∧
      (eventStream first_chunk chunks citations chunk_id chunk_created model
        false fate).frames =
      (eventStream first_chunk chunks citations chunk_id chunk_created model
        true fate).frames ∧
      (eventStream first_chunk chunks citations chunk_id chunk_created model
        false fate).raised =
      (eventStream first_chunk chunks citations chunk_id chunk_created model
        true fate).raised) := by
  refine ⟨?_, ?_, ?_⟩
  · intro validate u c file e h
    unfold handleChatAuditStep
    rw [show writeEvent validate u c file e =
        (if validate (writePayload u c file e) then
          (file ++ [.line (writePayload u c file e)],
            .ok (writePayload u c file e))
        else (file, .error "AuditValidationError")) from rfl]
    rw [h]
    rfl
  · intro validate u c file e h
    unfold handleChatAuditStep
    rw [show writeEvent validate u c file e =
        (if validate (writePayload u c file e) then
          (file ++ [.line (writePayload u c file e)],
            .ok (writePayload u c file e))
        else (file, .error "AuditValidationError")) from rfl]
    rw [h]
    rfl
  · intro first_chunk chunks citations chunk_id chunk_created model fate
    exact ⟨rfl, rfl, rfl⟩

/-- Witness for C7: a validator that rejects everything against a concrete
event, and one that accepts it. -/
theorem audit_failure_fail_closed_witness :
    handleChatAuditStep (fun _ => false) "u" "t" []
        [("a", JVal.str "1")] = ([], .error auditWriteFailedError) ∧
    handleChatAuditStep (fun _ => true) "u" "t" [] [("a", JVal.str "1")] =
      ([.line (writePayload "u" "t" [] [("a", JVal.str "1")])],
        .ok (writePayload "u" "t" [] [("a", JVal.str "1")])) := by
  exact ⟨audit_failure_fail_closed.1 (fun _ => false) "u" "t" []
      [("a", JVal.str "1")] rfl,
    by
      have h := audit_failure_fail_closed.2.1 (fun _ => true) "u" "t" []
        [("a", JVal.str "1")] rfl
      simpa using h⟩

/-- **C8.** Neither the `BudgetTracker` protocol nor either tracker
implementation defines a `check_running` method: the operation the spec
and the streaming-budget integration test rely on is absent from
src/app/budget/tracker.py. -/
theorem no_check_running_method :
    ("check_running" ∉ budgetTrackerProtocolMethods) ∧
    ("check_running" ∉ tokenBudgetTrackerMethods) ∧
    ("check_running" ∉ redisTokenBudgetTrackerMethods) := by
  refine ⟨?_, ?_, ?_⟩ <;> decide

/-! ### Matcher lemmas for the redaction engine -/

theorem starSplits_mem {c : CC} :
    ∀ {t s : List Char}, s ∈ starSplits c t ↔
      ∃ pre, t = pre ++ s ∧ ∀ y ∈ pre, CC.mem c y = true := by
  intro t
  induction t with
  | nil =>
    intro s
    constructor
    · intro h
      rcases List.mem_singleton.mp h with rfl
      exact ⟨[], rfl, by simp⟩
    · rintro ⟨pre, heq, -⟩
      have : pre = [] ∧ s = [] := by
        constructor <;> [skip; skip] <;>
          · cases pre <;> simp_all
      rw [this.2]
      simp [starSplits]
  | cons x rs ih =>
    intro s
    constructor
    · intro h
      rcases List.mem_append.mp h with h | h
      · by_cases hm : CC.mem c x = true
        · rw [if_pos hm] at h
          obtain ⟨pre, heq, hall⟩ := ih.mp h
          refine ⟨x :: pre, by simp [heq], ?_⟩
          intro y hy
          rcases List.mem_cons.mp hy with rfl | hy
          · exact hm
          · exact hall y hy
        · rw [if_neg hm] at h
          simp at h
      · rcases List.mem_singleton.mp h with rfl
        exact ⟨[], rfl, by simp⟩
    · rintro ⟨pre, heq, hall⟩
      cases pre with
      | nil =>
        simp at heq
        rw [← heq]
        exact List.mem_append.mpr (Or.inr (by simp))
      | cons p ps =>
        injection heq with h1 h2
        subst h1
        have hm : CC.mem c x = true := hall x (by simp)
        refine List.mem_append.mpr (Or.inl ?_)
        rw [if_pos hm]
        exact ih.mpr ⟨ps, h2, fun y hy => hall y (by simp [hy])⟩

theorem accepts_star_of_all {c : CC} :
    ∀ {pre : List Char}, (∀ y ∈ pre, CC.mem c y = true) →
      Accepts (.star c) pre := by
  intro pre
  induction pre with
  | nil => intro _; exact .starNil
  | cons y ys ih =>
    intro h
    exact .starCons (h y (by simp)) (ih (fun z hz => h z (by simp [hz])))

theorem all_of_accepts_star {c : CC} :
    ∀ {l : List Char}, Accepts (.star c) l → ∀ y ∈ l, CC.mem c y = true := by
  intro l h
  induction l with
  | nil => intro y hy; simp at hy
  | cons z zs ih =>
    cases h with
    | starCons hz hrest =>
      intro y hy
      rcases List.mem_cons.mp hy with rfl | hy
      · exact hz
      · exact ih hrest y hy

/-- Every way `run` consumes decomposes the input, and the consumed prefix
is accepted by the body. -/
theorem run_decomp :
    ∀ (b : RE) (t s : List Char), s ∈ run b t →
      ∃ cs, t = cs ++ s ∧ Accepts b cs := by
  intro b
  induction b with
  | eps =>
    intro t s h
    rcases List.mem_singleton.mp h with rfl
    exact ⟨[], rfl, .eps⟩
  | cls c =>
    intro t s h
    cases t with
    | nil => simp [run] at h
    | cons x rs =>
      by_cases hm : CC.mem c x = true
      · simp only [run, if_pos hm] at h
        rcases List.mem_singleton.mp h with rfl
        exact ⟨[x], rfl, .cls hm⟩
      · simp only [run, if_neg hm] at h
        simp at h
  | seq a b iha ihb =>
    intro t s h
    simp only [run] at h
    rcases List.mem_flatMap.mp h with ⟨mid, hmid, hs⟩
    obtain ⟨ca, hta, haccA⟩ := iha t mid hmid
    obtain ⟨cb, htb, haccB⟩ := ihb mid s hs
    exact ⟨ca ++ cb, by rw [hta, htb, List.append_assoc],
      .seq haccA haccB⟩
  | alt a b iha ihb =>
    intro t s h
    simp only [run] at h
    rcases List.mem_append.mp h with h | h
    · obtain ⟨cs, ht, hacc⟩ := iha t s h
      exact ⟨cs, ht, .altL hacc⟩
    · obtain ⟨cs, ht, hacc⟩ := ihb t s h
      exact ⟨cs, ht, .altR hacc⟩
  | star c =>
    intro t s h
    obtain ⟨pre, ht, hall⟩ := starSplits_mem.mp h
    exact ⟨pre, ht, accepts_star_of_all hall⟩

/-- Completeness: whatever the body accepts, `run` can consume, whatever
follows. -/
theorem run_complete :
    ∀ {b : RE} {cs : List Char}, Accepts b cs →
      ∀ s, s ∈ run b (cs ++ s) := by
  intro b cs h
  induction h with
  | eps => intro s; simp [run]
  | cls hm => intro s; simp [run, hm]
  | seq ha hb iha ihb =>
    intro s
    rename_i a' b' u v
    simp only [run]
    refine List.mem_flatMap.mpr ⟨v ++ s, ?_, ihb s⟩
    have := iha (v ++ s)
    simpa [List.append_assoc] using this
  | altL ha ih =>
    intro s
    simp only [run]
    exact List.mem_append.mpr (Or.inl (ih s))
  | altR hb ih =>
    intro s
    simp only [run]
    exact List.mem_append.mpr (Or.inr (ih s))
  | starNil =>
    intro s
    simp only [run]
    exact starSplits_mem.mpr ⟨[], rfl, by simp⟩
  | starCons hm hrest ih =>
    intro s
    rename_i c' ch l
    simp only [run]
    refine starSplits_mem.mpr ⟨ch :: l, rfl, ?_⟩
    intro y hy
    rcases List.mem_cons.mp hy with rfl | hy
    · exact hm
    · exact all_of_accepts_star hrest y hy

theorem cc_no_bracket {cc : CC} {ch : Char} (hok : ccNoBracket cc = true)
    (hm : CC.mem cc ch = true) : ch ≠ '[' ∧ ch ≠ ']' := by
  cases cc with
  | litCh a =>
    simp only [CC.mem, beq_iff_eq] at hm
    subst hm
    simp only [ccNoBracket, Bool.and_eq_true, bne_iff_ne,
      Bool.not_eq_true'] at hok
    exact ⟨by simpa using hok.1, by simpa using hok.2⟩
  | litCI a =>
    simp only [ccNoBracket, Bool.and_eq_true, Bool.not_eq_true',
      beq_eq_false_iff_ne] at hok
    obtain ⟨⟨⟨h1, h2⟩, h3⟩, h4⟩ := hok
    simp only [CC.mem, Bool.or_eq_true, beq_iff_eq] at hm
    constructor
    · rintro rfl
      rcases hm with rfl | hm
      · exact h1 rfl
      · have : a.toNat = 59 := by
          have hbr : ('[').toNat = 91 := rfl
          omega
        exact h3 (by simpa using this)
    · rintro rfl
      rcases hm with rfl | hm
      · exact h2 rfl
      · have : a.toNat = 61 := by
          have hbr : (']').toNat = 93 := rfl
          omega
        exact h4 (by simpa using this)
  | digit =>
    constructor <;> rintro rfl <;> exact absurd hm (by decide)
  | ws =>
    constructor <;> rintro rfl <;> exact absurd hm (by decide)
  | sepColonWsDash =>
    constructor <;> rintro rfl <;> exact absurd hm (by decide)
  | slashDash =>
    constructor <;> rintro rfl <;> exact absurd hm (by decide)
  | wsDash =>
    constructor <;> rintro rfl <;> exact absurd hm (by decide)
  | sepDotDashWs =>
    constructor <;> rintro rfl <;> exact absurd hm (by decide)
  | ninoFirst =>
    constructor <;> rintro rfl <;> exact absurd hm (by decide)
  | ninoLast =>
    constructor <;> rintro rfl <;> exact absurd hm (by decide)
  | emailLocal =>
    constructor <;> rintro rfl <;> exact absurd hm (by decide)
  | emailDomain =>
    constructor <;> rintro rfl <;> exact absurd hm (by decide)
  | emailTld =>
    constructor <;> rintro rfl <;> exact absurd hm (by decide)

theorem accepts_no_bracket {b : RE} {cs : List Char}
    (hok : reNoBracket b = true) (hacc : Accepts b cs) :
    ∀ ch ∈ cs, ch ≠ '[' ∧ ch ≠ ']' := by
  induction hacc with
  | eps => intro ch h; simp at h
  | cls hm =>
    intro ch h
    rcases List.mem_singleton.mp h with rfl
    exact cc_no_bracket (by simpa [reNoBracket] using hok) hm
  | seq ha hb iha ihb =>
    simp only [reNoBracket, Bool.and_eq_true] at hok
    intro ch h
    rcases List.mem_append.mp h with h | h
    · exact iha hok.1 ch h
    · exact ihb hok.2 ch h
  | altL ha ih =>
    simp only [reNoBracket, Bool.and_eq_true] at hok
    exact ih hok.1
  | altR hb ih =>
    simp only [reNoBracket, Bool.and_eq_true] at hok
    exact ih hok.2
  | starNil => intro ch h; simp at h
  | starCons hm hrest ih =>
    intro ch h
    rcases List.mem_cons.mp h with rfl | h
    · exact cc_no_bracket (by simpa [reNoBracket] using hok) hm
    · exact ih (by simpa [reNoBracket] using hok) ch h

theorem asciiDigit_isUniDigit {c : Char} (h : isAsciiDigit c = true) :
    isUniDigit c = true := by
  simp only [isAsciiDigit, Bool.and_eq_true, decide_eq_true_eq] at h
  simp only [isUniDigit, inRanges, List.any_eq_true]
  refine ⟨(48, 57), by simp [ndRanges], ?_⟩
  simp only [Bool.and_eq_true, decide_eq_true_eq]
  omega

theorem cc_digitAt {cc : CC} {ch : Char} (hok : ccDigitAt cc = true)
    (hm : CC.mem cc ch = true) : isDigitAt ch = true := by
  cases cc with
  | digit => simp [isDigitAt, CC.mem] at hm ⊢; exact Or.inl hm
  | litCh a =>
    simp only [CC.mem, beq_iff_eq] at hm
    subst hm
    simp only [ccDigitAt, Bool.or_eq_true] at hok
    simp only [isDigitAt, Bool.or_eq_true]
    rcases hok with h | h
    · exact Or.inl (asciiDigit_isUniDigit h)
    · exact Or.inr h
  | litCI a => simp [ccDigitAt] at hok
  | ws => simp [ccDigitAt] at hok
  | sepColonWsDash => simp [ccDigitAt] at hok
  | slashDash => simp [ccDigitAt] at hok
  | wsDash => simp [ccDigitAt] at hok
  | sepDotDashWs => simp [ccDigitAt] at hok
  | ninoFirst => simp [ccDigitAt] at hok
  | ninoLast => simp [ccDigitAt] at hok
  | emailLocal => simp [ccDigitAt] at hok
  | emailDomain => simp [ccDigitAt] at hok
  | emailTld => simp [ccDigitAt] at hok

theorem accepts_digitAt {b : RE} {cs : List Char}
    (hok : REInevDigitAt b = true) (hacc : Accepts b cs) :
    ∃ ch ∈ cs, isDigitAt ch = true := by
  induction hacc with
  | eps => simp [REInevDigitAt] at hok
  | cls hm =>
    exact ⟨_, by simp, cc_digitAt (by simpa [REInevDigitAt] using hok) hm⟩
  | seq ha hb iha ihb =>
    simp only [REInevDigitAt, Bool.or_eq_true] at hok
    rcases hok with hok | hok
    · obtain ⟨ch, hch, hd⟩ := iha hok
      exact ⟨ch, List.mem_append.mpr (Or.inl hch), hd⟩
    · obtain ⟨ch, hch, hd⟩ := ihb hok
      exact ⟨ch, List.mem_append.mpr (Or.inr hch), hd⟩
  | altL ha ih =>
    simp only [REInevDigitAt, Bool.and_eq_true] at hok
    exact ih hok.1
  | altR hb ih =>
    simp only [REInevDigitAt, Bool.and_eq_true] at hok
    exact ih hok.2
  | starNil => simp [REInevDigitAt] at hok
  | starCons hm hrest ih => simp [REInevDigitAt] at hok

/-- What a successful `matchAt` provides: a leading boundary, an accepted
consumed prefix of the stated length, and a trailing boundary. -/
theorem matchAt_elim {b : RE} {prev : Option Char} {rest : List Char}
    {L : Nat} (h : matchAt b prev rest = some L) :
    bdry prev rest.head? = true ∧
    ∃ cs suf, rest = cs ++ suf ∧ cs.length = L ∧ Accepts b cs ∧
      bdry (lastOr prev cs) suf.head? = true := by
  unfold matchAt at h
  by_cases hb : bdry prev rest.head? = true
  · rw [if_pos hb] at h
    refine ⟨hb, ?_⟩
    cases hf : (run b rest).find? (fun suffix =>
        bdry
          (match (rest.take (rest.length - suffix.length)).getLast? with
            | some c => some c
            | none => prev)
          suffix.head?) with
    | none => rw [hf] at h; simp at h
    | some suffix =>
      rw [hf] at h
      injection h with h
      subst h
      have hmem := List.mem_of_find?_eq_some hf
      have hpred := List.find?_some hf
      obtain ⟨cs, hrest, hacc⟩ := run_decomp b rest suffix hmem
      have hlen : cs.length = rest.length - suffix.length := by
        rw [hrest]
        simp
      refine ⟨cs, suffix, hrest, hlen, hacc, ?_⟩
      have htake : rest.take (rest.length - suffix.length) = cs := by
        rw [← hlen, hrest, List.take_left]
      rw [htake] at hpred
      exact hpred
  · rw [if_neg hb] at h
    simp at h

/-- A valid candidate forces `matchAt` to succeed. -/
theorem matchAt_isSome {b : RE} {prev : Option Char} {rest s : List Char}
    (hb : bdry prev rest.head? = true) (hs : s ∈ run b rest)
    (hbd : bdry (lastOr prev (rest.take (rest.length - s.length)))
      s.head? = true) :
    matchAt b prev rest ≠ none := by
  unfold matchAt
  rw [if_pos hb]
  have hsome : ((run b rest).find? (fun suffix =>
      bdry
        (match (rest.take (rest.length - suffix.length)).getLast? with
          | some c => some c
          | none => prev)
        suffix.head?)).isSome := by
    refine List.find?_isSome.mpr ⟨s, hs, ?_⟩
    exact hbd
  cases hf : (run b rest).find? (fun suffix =>
      bdry
        (match (rest.take (rest.length - suffix.length)).getLast? with
          | some c => some c
          | none => prev)
        suffix.head?) with
  | none => rw [hf] at hsome; simp at hsome
  | some suffix => simp

/-- For an inevitability-checked body a match is never empty. -/
theorem matchAt_pos {b : RE} {prev : Option Char} {rest : List Char}
    {L : Nat} (hok : REInevDigitAt b = true)
    (h : matchAt b prev rest = some L) : 1 ≤ L := by
  obtain ⟨-, cs, suf, -, hlen, hacc, -⟩ := matchAt_elim h
  obtain ⟨ch, hch, -⟩ := accepts_digitAt hok hacc
  cases cs with
  | nil => simp at hch
  | cons c cs' =>
    rw [List.length_cons] at hlen
    omega

/-- For an inevitability-checked body there is no match at the end of the
text. -/
theorem matchAt_nil_none {b : RE} {prev : Option Char}
    (hok : REInevDigitAt b = true) : matchAt b prev [] = none := by
  cases h : matchAt b prev ([] : List Char) with
  | none => rfl
  | some L =>
    obtain ⟨-, cs, suf, heq, hlen, hacc, -⟩ := matchAt_elim h
    obtain ⟨ch, hch, -⟩ := accepts_digitAt hok hacc
    have : cs = [] := by
      cases cs with
      | nil => rfl
      | cons c cs' => simp at heq
    subst this
    simp at hch

/-- The chunk decomposition covers the input text exactly. -/
theorem renderIn_chunksGo (pat : RePattern) :
    ∀ (prev : Option Char) (t : List Char),
      renderIn (chunksGo pat prev t) = t := by
  intro prev t
  induction prev, t using chunksGo.induct pat with
  | case1 prev val h =>
    simp only [chunksGo, h]
    rfl
  | case2 prev h =>
    simp only [chunksGo, h]
    rfl
  | case3 prev x rs h ih =>
    simp only [chunksGo, h, renderIn]
    rw [ih]
  | case4 prev x rs h ih =>
    simp only [chunksGo, h, renderIn]
    rw [ih]
    rfl
  | case5 prev x rs L h ih =>
    simp only [chunksGo, h, renderIn]
    rw [ih]
    exact List.take_append_drop _ _

/-- The scanner's output is the rendering of its chunk decomposition. -/
theorem subnGo_renderOut (pat : RePattern) :
    ∀ (prev : Option Char) (t : List Char),
      (subnGo pat prev t).1 = renderOut pat.replacement
        (chunksGo pat prev t) := by
  intro prev t
  induction prev, t using chunksGo.induct pat with
  | case1 prev val h =>
    simp only [chunksGo, subnGo, h]
    simp [renderOut]
  | case2 prev h =>
    simp only [chunksGo, subnGo, h]
    rfl
  | case3 prev x rs h ih =>
    simp only [chunksGo, subnGo, h, renderOut]
    rw [ih]
  | case4 prev x rs h ih =>
    simp only [chunksGo, subnGo, h, renderOut]
    rw [ih]
  | case5 prev x rs L h ih =>
    simp only [chunksGo, subnGo, h, renderOut]
    rw [ih]

/-- The chunk decomposition is well-formed (needs the pattern's
inevitability, which rules out empty matches). -/
theorem chunksGo_wf (pat : RePattern)
    (hok : REInevDigitAt pat.body = true) :
    ∀ (prev : Option Char) (t : List Char),
      ChunksWF pat prev (chunksGo pat prev t) := by
  intro prev t
  induction prev, t using chunksGo.induct pat with
  | case1 prev val h =>
    exact absurd h (by rw [matchAt_nil_none hok]; simp)
  | case2 prev h =>
    simp only [chunksGo, h]
    trivial
  | case3 prev x rs h ih =>
    simp only [chunksGo, h]
    refine ⟨?_, ih⟩
    rw [renderIn_chunksGo]
    exact h
  | case4 prev x rs h ih =>
    exact absurd (matchAt_pos hok h) (by omega)
  | case5 prev x rs L h ih =>
    simp only [chunksGo, h]
    have hlen : L + 1 ≤ (x :: rs).length := by
      obtain ⟨-, cs, suf, heq, hl, -, -⟩ := matchAt_elim h
      rw [heq]
      simp
      omega
    refine ⟨?_, ?_, ih⟩
    · rw [renderIn_chunksGo, List.take_append_drop,
        List.length_take]
      rw [show min (L + 1) (x :: rs).length = L + 1 from by omega]
      exact h
    · simp [List.take_cons]

theorem lastOr_cons (prev : Option Char) (x : Char) (pre : List Char) :
    lastOr prev (x :: pre) = lastOr (some x) pre := by
  cases pre with
  | nil => rfl
  | cons y ys =>
    cases hl : (y :: ys).getLast? with
    | none => simp [List.getLast?_eq_none_iff] at hl
    | some c => simp [lastOr, List.getLast?_cons_cons, hl]

theorem lastOr_append (prev : Option Char) (u v : List Char) :
    lastOr prev (u ++ v) = lastOr (lastOr prev u) v := by
  induction u generalizing prev with
  | nil => rfl
  | cons x u' ih =>
    rw [List.cons_append, lastOr_cons, ih, lastOr_cons]

theorem lastOr_ne_nil (prev : Option Char) {m : List Char} (h : m ≠ []) :
    lastOr prev m = m.getLast? := by
  unfold lastOr
  cases hl : m.getLast? with
  | none => exact absurd (List.getLast?_eq_none_iff.mp hl) h
  | some c => rfl

theorem noMatchFrom_drop {b : RE} {prev : Option Char} {u t : List Char}
    (h : NoMatchFrom b prev (u ++ t)) :
    NoMatchFrom b (lastOr prev u) t := by
  intro pre suf heq
  have := h (u ++ pre) suf (by rw [heq, List.append_assoc])
  rwa [lastOr_append] at this

theorem noMatchFrom_head {b : RE} {prev : Option Char} {t : List Char}
    (h : NoMatchFrom b prev t) : matchAt b prev t = none :=
  h [] t rfl

theorem replOKb_shape {l : List Char} (h : replOKb l = true) :
    ∃ inner, l = '[' :: (inner ++ [']']) ∧
      ∀ ch ∈ inner, isDigitAt ch = false ∧ ch ≠ '[' ∧ ch ≠ ']' := by
  have tail_shape : ∀ (rest : List Char), replTail rest = true →
      ∃ inner, rest = inner ++ [']'] ∧
        ∀ ch ∈ inner, isDigitAt ch = false ∧ ch ≠ '[' ∧ ch ≠ ']' := by
    intro rest
    induction rest with
    | nil => intro hf; simp [replTail] at hf
    | cons ch rest' ih =>
      intro hf
      cases rest' with
      | nil =>
        simp only [replTail, beq_iff_eq] at hf
        exact ⟨[], by simp [hf], by simp⟩
      | cons d rest'' =>
        simp only [replTail, Bool.and_eq_true, Bool.not_eq_true',
          beq_eq_false_iff_ne] at hf
        obtain ⟨⟨⟨h1, h2⟩, h3⟩, h4⟩ := hf
        obtain ⟨inner, heq, hall⟩ := ih h4
        refine ⟨ch :: inner, by simp [heq], ?_⟩
        intro c hc
        rcases List.mem_cons.mp hc with rfl | hc
        · exact ⟨h1, h2, h3⟩
        · exact hall c hc
  unfold replOKb at h
  split at h
  · obtain ⟨inner, heq, hall⟩ := tail_shape _ h
    exact ⟨inner, by simp [heq], hall⟩
  · simp at h

/-- No pattern match can start at an opening bracket. -/
theorem matchAt_bracket_none {b : RE} {ctx : Option Char} {w : List Char}
    (hinev : REInevDigitAt b = true) (hnb : reNoBracket b = true) :
    matchAt b ctx ('[' :: w) = none := by
  cases h : matchAt b ctx ('[' :: w) with
  | none => rfl
  | some L =>
    obtain ⟨-, cs, suf, heq, hlen, hacc, -⟩ := matchAt_elim h
    have hpos : 1 ≤ L := matchAt_pos hinev h
    cases cs with
    | nil => simp at hlen; omega
    | cons c cs' =>
      have : c = '[' := by
        have := congrArg List.head? heq
        simpa using this.symm
      subst this
      exact absurd rfl (accepts_no_bracket hnb hacc '[' (by simp)).1

/-- No pattern match can start inside a replacement token: the remaining
token body has no digit or `@` and the closing bracket cannot be
consumed. -/
theorem matchAt_token_none {b : RE} {ctx : Option Char}
    {u v : List Char} (hinev : REInevDigitAt b = true)
    (hnb : reNoBracket b = true)
    (hu : ∀ ch ∈ u, isDigitAt ch = false ∧ ch ≠ '[' ∧ ch ≠ ']') :
    matchAt b ctx (u ++ ']' :: v) = none := by
  cases h : matchAt b ctx (u ++ ']' :: v) with
  | none => rfl
  | some L =>
    obtain ⟨-, cs, suf, heq, hlen, hacc, -⟩ := matchAt_elim h
    obtain ⟨chD, hchD, hdig⟩ := accepts_digitAt hinev hacc
    rcases List.append_eq_append_iff.mp heq.symm with
      ⟨a', hu', -⟩ | ⟨c', hcs, hsuf⟩
    · have : chD ∈ u := by rw [hu']; exact List.mem_append.mpr (Or.inl hchD)
      rw [(hu chD this).1] at hdig
      simp at hdig
    · cases c' with
      | nil =>
        rw [List.append_nil] at hcs
        subst hcs
        rw [(hu chD hchD).1] at hdig
        simp at hdig
      | cons e c'' =>
        have he : e = ']' := by
          have := congrArg List.head? hsuf
          simpa using this.symm
        subst he
        have : (']' : Char) ∈ cs := by
          rw [hcs]
          exact List.mem_append.mpr (Or.inr (by simp))
        exact absurd rfl (accepts_no_bracket hnb hacc ']' this).2

theorem cons_of_append_cons {m r : List Char} {c : Char} {t : List Char}
    (hne : m ≠ []) (h : m ++ r = c :: t) :
    ∃ m', m = c :: m' ∧ m' ++ r = t := by
  cases m with
  | nil => exact absurd rfl hne
  | cons a m' =>
    injection h with h1 h2
    subst h1
    exact ⟨m', rfl, h2⟩

/-- The entry-context boundary transfer: with equal contexts, a boundary
before the output's first character gives one before the input's first
character. -/
theorem inv_refl (q : RePattern) :
    ∀ (ch : List SChunk) (prevW : Option Char), ChunksWF q prevW ch →
    bdry prevW ((renderOut q.replacement ch).head?) = true →
    bdry prevW ((renderIn ch).head?) = true := by
  intro ch prevW hwf
  cases ch with
  | nil => exact fun h => h
  | cons x ch' =>
    cases x with
    | cop c => exact fun h => h
    | rep cs =>
      intro _
      obtain ⟨hmatch, -, -⟩ := hwf
      exact (matchAt_elim hmatch).1

/-- Prefix correspondence: a non-empty bracket-free prefix of the rendered
output is a prefix of the covered input, and a word boundary after it in
the output transfers to the input. -/
theorem prefix_correspondence (q : RePattern)
    (hrepl : replOKb q.replacement = true) :
    ∀ (ch : List SChunk) (prevW : Option Char), ChunksWF q prevW ch →
    ∀ (m r : List Char), m ≠ [] →
    (∀ c' ∈ m, c' ≠ '[' ∧ c' ≠ ']') →
    renderOut q.replacement ch = m ++ r →
    ∃ rI, renderIn ch = m ++ rI ∧
      (bdry m.getLast? r.head? = true → bdry m.getLast? rI.head? = true)
    := by
  intro ch
  induction ch with
  | nil =>
    intro prevW _ m r hne _ hout
    have : m = [] := by
      cases m with
      | nil => rfl
      | cons a m' => simp [renderOut] at hout
    exact absurd this hne
  | cons x ch' ih =>
    intro prevW hwf m r hne hnb hout
    cases x with
    | rep cs =>
      exfalso
      obtain ⟨inner, hshape, -⟩ := replOKb_shape hrepl
      have hout2 : q.replacement ++ renderOut q.replacement ch' = m ++ r :=
        hout
      rw [hshape] at hout2
      obtain ⟨m', hm, -⟩ := cons_of_append_cons hne hout2.symm
      have hmem : '[' ∈ m := by rw [hm]; simp
      exact (hnb '[' hmem).1 rfl
    | cop c =>
      obtain ⟨hfail, hwf'⟩ := hwf
      have hout' : m ++ r = c :: renderOut q.replacement ch' := hout.symm
      obtain ⟨m', rfl, hm'⟩ := cons_of_append_cons hne hout'
      by_cases hm'nil : m' = []
      · subst hm'nil
        refine ⟨renderIn ch', by simp [renderIn], ?_⟩
        intro hb
        rw [List.nil_append] at hm'
        subst hm'
        simpa using inv_refl q ch' (some c) hwf' (by simpa using hb)
      · obtain ⟨rI, hin', htrans⟩ := ih (some c) hwf' m' r hm'nil
          (fun c' hc' => hnb c' (by simp [hc'])) hm'.symm
        refine ⟨rI, by simp [renderIn, hin'], ?_⟩
        have hlast : (c :: m').getLast? = m'.getLast? := by
          cases m' with
          | nil => exact absurd rfl hm'nil
          | cons a as => simp [List.getLast?_cons_cons]
        rw [hlast]
        exact htrans

theorem noMatchFrom_nil {b : RE} {prev : Option Char}
    (h : matchAt b prev [] = none) : NoMatchFrom b prev [] := by
  intro pre suf heq
  obtain ⟨rfl, rfl⟩ := List.append_eq_nil.mp heq.symm
  exact h

theorem noMatchFrom_cons {b : RE} {prev : Option Char} {x : Char}
    {t : List Char} (h1 : matchAt b prev (x :: t) = none)
    (h2 : NoMatchFrom b (some x) t) : NoMatchFrom b prev (x :: t) := by
  intro pre suf heq
  cases pre with
  | nil =>
    simp only [List.nil_append] at heq
    subst heq
    exact h1
  | cons a pre' =>
    injection heq with hax heq'
    subst hax
    rw [lastOr_cons]
    exact h2 pre' suf heq'

/-- Prefix correspondence including the empty prefix, phrased with
`lastOr` contexts. -/
theorem pc_lastOr (q : RePattern) (hrepl : replOKb q.replacement = true)
    (ch : List SChunk) (prevW : Option Char) (hwf : ChunksWF q prevW ch)
    (m r : List Char) (hnb : ∀ c' ∈ m, c' ≠ '[' ∧ c' ≠ ']')
    (hout : renderOut q.replacement ch = m ++ r) :
    ∃ rI, renderIn ch = m ++ rI ∧
      (bdry (lastOr prevW m) r.head? = true →
        bdry (lastOr prevW m) rI.head? = true) := by
  by_cases hne : m = []
  · subst hne
    rw [List.nil_append] at hout
    subst hout
    exact ⟨renderIn ch, by simp, fun h => inv_refl q ch prevW hwf h⟩
  · obtain ⟨rI, hin, htr⟩ :=
      prefix_correspondence q hrepl ch prevW hwf m r hne hnb hout
    refine ⟨rI, hin, ?_⟩
    rw [lastOr_ne_nil prevW hne]
    exact htr

/-- A match of `p` at the head of a pass's output transfers to a match of
`p` at the head of the corresponding input. -/
theorem matchAt_out_to_in {p q : RePattern} (hp : PatOK p) (hq : PatOK q)
    {c : Char} {ch' : List SChunk} {prevI prevO : Option Char}
    (hwf' : ChunksWF q (some c) ch')
    (hinv : bdry prevO (some c) = true → bdry prevI (some c) = true)
    {L : Nat}
    (h : matchAt p.body prevO (c :: renderOut q.replacement ch') = some L) :
    matchAt p.body prevI (c :: renderIn ch') ≠ none := by
  obtain ⟨hb0, m, suf', heq, hlen, hacc, hbd⟩ := matchAt_elim h
  have hpos : 1 ≤ L := matchAt_pos hp.1 h
  have hmne : m ≠ [] := by
    intro hnil
    subst hnil
    simp at hlen
    omega
  obtain ⟨m0, hm0, hm0'⟩ := cons_of_append_cons hmne heq.symm
  have hnb0 : ∀ c' ∈ m0, c' ≠ '[' ∧ c' ≠ ']' := by
    intro c' hc'
    exact accepts_no_bracket hp.2.1 hacc c' (by rw [hm0]; simp [hc'])
  obtain ⟨rI, hin, htr⟩ :=
    pc_lastOr q hq.2.2 ch' (some c) hwf' m0 suf' hnb0 hm0'.symm
  have hbI : bdry prevI (some c) = true := hinv (by simpa using hb0)
  have hctx : lastOr prevO m = lastOr (some c) m0 := by
    rw [hm0, lastOr_cons]
  rw [hctx] at hbd
  have hbd' : bdry (lastOr (some c) m0) rI.head? = true := htr hbd
  have hrest : c :: renderIn ch' = m ++ rI := by
    rw [hin, hm0]
    simp
  rw [hrest]
  refine matchAt_isSome ?_ (run_complete hacc rI) ?_
  · rw [hm0]
    simpa using hbI
  · have htake : (m ++ rI).take ((m ++ rI).length - rI.length) = m := by
      rw [List.length_append, Nat.add_sub_cancel, List.take_left]
    rw [htake, hm0, lastOr_cons]
    exact hbd'

/-- Master preservation: after one substitution pass, no pattern match
remains anywhere in the output — neither of the pass's own pattern nor of
any pattern that already had no match in the input. -/
theorem noMatch_renderOut {p q : RePattern} (hp : PatOK p)
    (hq : PatOK q) :
    ∀ (chs : List SChunk) (prevI prevO : Option Char),
      ChunksWF q prevI chs →
      (bdry prevO ((renderOut q.replacement chs).head?) = true →
        bdry prevI ((renderIn chs).head?) = true) →
      (p = q ∨ NoMatchFrom p.body prevI (renderIn chs)) →
      NoMatchFrom p.body prevO (renderOut q.replacement chs) := by
  intro chs
  induction chs with
  | nil =>
    intro prevI prevO _ _ _
    exact noMatchFrom_nil (matchAt_nil_none hp.1)
  | cons x ch' ih =>
    intro prevI prevO hwf hinv hdis
    cases x with
    | cop c =>
      obtain ⟨hfail, hwf'⟩ := hwf
      apply noMatchFrom_cons
      · cases hM : matchAt p.body prevO (c :: renderOut q.replacement ch')
          with
        | none => rfl
        | some L =>
          exfalso
          have hne := matchAt_out_to_in hp hq hwf' hinv hM
          rcases hdis with rfl | hNM
          · exact hne hfail
          · exact hne (noMatchFrom_head hNM)
      · refine ih (some c) (some c) hwf' (inv_refl q ch' (some c) hwf') ?_
        rcases hdis with rfl | hNM
        · exact Or.inl rfl
        · right
          have h2 := noMatchFrom_drop (u := [c]) hNM
          rw [lastOr_cons] at h2
          exact h2
    | rep cs =>
      obtain ⟨hmatch, hcsne, hwf'⟩ := hwf
      obtain ⟨inner, hshape, hinner⟩ := replOKb_shape hq.2.2
      have htb : bdry cs.getLast? ((renderIn ch').head?) = true := by
        obtain ⟨-, csm, sufm, heqm, hlenm, -, hbdm⟩ := matchAt_elim hmatch
        obtain ⟨hcs, hsuf⟩ := List.append_inj heqm hlenm.symm
        subst hcs
        subst hsuf
        rwa [lastOr_ne_nil prevI hcsne] at hbdm
      have htail :
          NoMatchFrom p.body (some ']') (renderOut q.replacement ch') := by
        refine ih cs.getLast? (some ']') hwf' (fun _ => htb) ?_
        rcases hdis with rfl | hNM
        · exact Or.inl rfl
        · right
          have h2 := noMatchFrom_drop (u := cs) hNM
          rwa [lastOr_ne_nil prevI hcsne] at h2
      have hLast : lastOr prevO ('[' :: (inner ++ [']'])) = some ']' := by
        rw [lastOr_ne_nil prevO (by simp)]
        rw [show ('[' :: (inner ++ [']'])) = ('[' :: inner) ++ [']'] from
          by simp]
        exact List.getLast?_concat _
      intro pre suf heq
      have heq2 :
          ('[' :: (inner ++ [']'])) ++ renderOut q.replacement ch' =
            pre ++ suf := by
        rw [← hshape]
        exact heq
      rcases List.append_eq_append_iff.mp heq2 with ⟨a, hA1, hA2⟩ |
        ⟨d, hB1, hB2⟩
      · rw [hA1, lastOr_append, hLast]
        exact htail a suf hA2
      · cases pre with
        | nil =>
          rw [List.nil_append] at hB1
          subst hB1
          rw [hB2]
          exact matchAt_bracket_none hp.1 hp.2.1
        | cons p0 pre0 =>
          injection hB1 with hp0 hB1'
          subst hp0
          rcases List.append_eq_append_iff.mp hB1' with ⟨b, hC1, hC2⟩ |
            ⟨e, hD1, hD2⟩
          · subst hC1
            cases b with
            | nil =>
              rw [List.nil_append] at hC2
              subst hC2
              rw [hB2]
              exact matchAt_token_none (u := ([] : List Char)) hp.1 hp.2.1
                (by simp)
            | cons b0 b1 =>
              injection hC2 with hb0 hC2'
              obtain ⟨rfl, rfl⟩ := List.append_eq_nil.mp hC2'.symm
              subst hb0
              rw [hB2, List.nil_append, hLast]
              exact noMatchFrom_head htail
          · rw [hB2, hD2, List.append_assoc]
            refine matchAt_token_none hp.1 hp.2.1 ?_
            intro ch hch
            refine hinner ch ?_
            rw [hD1]
            exact List.mem_append.mpr (Or.inr hch)

/-- A pass leaves no residual matches of its own pattern in its output. -/
theorem subn_establishes (q : RePattern) (hq : PatOK q) (t : List Char) :
    NoMatchFrom q.body none (subn q t).1 := by
  have h1 : (subn q t).1 = renderOut q.replacement (chunksGo q none t) :=
    subnGo_renderOut q none t
  rw [h1]
  exact noMatch_renderOut hq hq (chunksGo q none t) none none
    (chunksGo_wf q hq.1 none t)
    (inv_refl q (chunksGo q none t) none (chunksGo_wf q hq.1 none t))
    (Or.inl rfl)

/-- A pass never reintroduces a match of a pattern its input was free
of. -/
theorem subn_preserves {p : RePattern} (q : RePattern) (hp : PatOK p)
    (hq : PatOK q) {t : List Char}
    (h : NoMatchFrom p.body none t) :
    NoMatchFrom p.body none (subn q t).1 := by
  have h1 : (subn q t).1 = renderOut q.replacement (chunksGo q none t) :=
    subnGo_renderOut q none t
  rw [h1]
  refine noMatch_renderOut hp hq (chunksGo q none t) none none
    (chunksGo_wf q hq.1 none t)
    (inv_refl q (chunksGo q none t) none (chunksGo_wf q hq.1 none t))
    (Or.inr ?_)
  rwa [renderIn_chunksGo q none t]

/-- On a text with no matches, a pass copies it without substitutions. -/
theorem subn_noop (p : RePattern) :
    ∀ (t : List Char) (prev : Option Char),
      NoMatchFrom p.body prev t → subnGo p prev t = (t, 0) := by
  intro t
  induction t with
  | nil =>
    intro prev h
    simp [subnGo, noMatchFrom_head h]
  | cons x rs ih =>
    intro prev h
    have h1 : NoMatchFrom p.body (some x) rs := by
      have h2 := noMatchFrom_drop (u := [x]) h
      rwa [lastOr_cons] at h2
    simp [subnGo, noMatchFrom_head h, ih (some x) h1]

/-- Running the catalog establishes absence of matches for every pattern
in it, and preserves absence for any pattern. -/
theorem fold_noMatch :
    ∀ (ps : List RePattern), (∀ pt ∈ ps, PatOK pt) →
    ∀ (t : List Char) (n : Nat) (p : RePattern), PatOK p →
    (p ∈ ps ∨ NoMatchFrom p.body none t) →
    NoMatchFrom p.body none
      (ps.foldl (fun acc pat =>
        let r := subn pat acc.1
        (r.1, acc.2 + r.2)) (t, n)).1 := by
  intro ps
  induction ps with
  | nil =>
    intro _ t n p _ hd
    rcases hd with h | h
    · simp at h
    · exact h
  | cons q ps' ih =>
    intro hps t n p hp hd
    have hq : PatOK q := hps q (by simp)
    have hps' : ∀ pt ∈ ps', PatOK pt := fun pt hpt => hps pt (by simp [hpt])
    have hnext : p ∈ ps' ∨ NoMatchFrom p.body none (subn q t).1 := by
      rcases hd with hmem | hnm
      · rcases List.mem_cons.mp hmem with rfl | hmem'
        · exact Or.inr (subn_establishes p hp t)
        · exact Or.inl hmem'
      · exact Or.inr (subn_preserves q hp hq hnm)
    rw [List.foldl_cons]
    exact ih hps' (subn q t).1 (n + (subn q t).2) p hp hnext

/-- A catalog run over a text free of all its patterns' matches is the
identity. -/
theorem fold_id :
    ∀ (ps : List RePattern) (t : List Char) (n : Nat),
      (∀ p ∈ ps, NoMatchFrom p.body none t) →
      ps.foldl (fun acc pat =>
        let r := subn pat acc.1
        (r.1, acc.2 + r.2)) (t, n) = (t, n) := by
  intro ps
  induction ps with
  | nil => intro t n _; rfl
  | cons q ps' ih =>
    intro t n h
    have hq : subnGo q none t = (t, 0) := subn_noop q t none (h q (by simp))
    rw [List.foldl_cons]
    have hrec : List.foldl (fun acc pat =>
        let r := subn pat acc.1
        (r.1, acc.2 + r.2)) ((subn q t).1, n + (subn q t).2) ps' =
          (t, n) := by
      rw [show subn q t = (t, 0) from hq]
      simpa using ih t n (fun p hp => h p (by simp [hp]))
    exact hrec

/-- C5: Redaction is idempotent on its own output: for every input
string `x`, running `redact_text` — the fixed ordered core pattern
catalog (MRN, DOB, NHS number, NINO, SSN, email, US phone, UK phone,
credit card) applied in sequence, each pattern's substitutions feeding
the next — on the text it already produced returns that text
unchanged. -/
theorem redact_text_idempotent (x : List Char) :
    (redact_text (redact_text x).1).1 = (redact_text x).1 := by
  have hAll : ∀ pt ∈ corePatterns, PatOK pt := by
    intro pt h
    fin_cases h <;> exact ⟨by decide, by decide, by decide⟩
  have hy : ∀ p ∈ corePatterns, NoMatchFrom p.body none (redact_text x).1 :=
    fun p hp => fold_noMatch corePatterns hAll x 0 p (hAll p hp) (Or.inl hp)
  have hfix : redact_text (redact_text x).1 = ((redact_text x).1, 0) :=
    fold_id corePatterns (redact_text x).1 0 hy
  rw [hfix]

end SRG
